import Mathlib

/-!
# mm: moving mail from POP3 to Maildir

A shallow embedding of `pop3.go`, `maildir.go` and the session part of
`main.go`, followed by the properties established about them.

Go strings are modelled by `String` (text) and `List Char` (its characters);
every separator and marker the program looks for is ASCII, so cutting at a
character and cutting at a byte agree on UTF-8 text.
-/

namespace MM

/-! ## Errors -/

/-- Go `error` values met by the program. `io` stands for an error handed back
by the operating system or the transport (its text is whatever the callee
chose), `errorf` for a value built by `fmt.Errorf`, `num` for the
`*strconv.NumError` of `strconv.Atoi` (`range = true` for `ErrRange`,
`false` for `ErrSyntax`). -/
inductive GoError where
  | io (msg : String)
  | errorf (msg : String)
  | num (input : String) (range : Bool)
  deriving DecidableEq, Repr

/-- The text `err.Error()` of the errors whose text the program fixes. -/
def GoError.message : GoError → Option String
  | .io m => some m
  | .errorf m => some m
  | .num _ _ => none

/-! ## `strings` -/

/-- `strings.IndexByte(s, c)`: position of the first `c` in `s`, if any. -/
def IndexByte : List Char → Char → Option Nat
  | [], _ => none
  | x :: xs, c => if x = c then some 0 else (IndexByte xs c).map (· + 1)

/-- `strings.Count(s, sep)` for a one-byte separator. -/
def Count (s : List Char) (sep : Char) : Nat :=
  (s.filter (· = sep)).length

/-- The loop of `strings.genSplit` (`sepSave = 0`, one-byte separator): at most
`n` cuts at `sep`, the rest of the string being the last piece. -/
def genSplitLoop (sep : Char) : Nat → List Char → List (List Char)
  | 0, s => [s]
  | n + 1, s =>
    match IndexByte s sep with
    | none => [s]
    | some m => s.take m :: genSplitLoop sep n (s.drop (m + 1))

/-- `strings.genSplit(s, sep, 0, n)` for `n ≥ 0` and a one-byte separator:
`n = 0` gives no piece, `n` is capped at `len(s) + 1`, and `n - 1` cuts are
made. -/
def genSplit (s : List Char) (sep : Char) (n : Nat) : List (List Char) :=
  if n = 0 then []
  else genSplitLoop sep (min n (s.length + 1) - 1) s

/-- `strings.SplitN(s, sep, n)` for `n ≥ 0` and a one-byte separator. -/
def SplitN (s : String) (sep : Char) (n : Nat) : List String :=
  (genSplit s.data sep n).map String.mk

/-- `strings.Split(s, sep)`, that is `genSplit` with `n = Count(s, sep) + 1`. -/
def Split (s : String) (sep : Char) : List String :=
  (genSplit s.data sep (Count s.data sep + 1)).map String.mk

/-! ## `pop3.go`: the response parser -/

/-- `ParseResponseLine` of `pop3.go`: the result triple `(ok, msg, err)`. -/
def ParseResponseLine (input : String) : Bool × String × Option GoError :=
  let s := SplitN input ' ' 2
  let s0 := s.headD ""
  if s0 = "+OK" then
    (true, if s.length = 2 then s.getD 1 "" else "", none)
  else if s0 = "-ERR" then
    (false, if s.length = 2 then s.getD 1 "" else "", none)
  else
    (false, "", some (.errorf ("Malformed response status: " ++ s0)))

/-- The text of `line` before its first space (all of it when it has none). -/
def leadingToken (line : String) : String :=
  String.mk (line.data.takeWhile (· ≠ ' '))

/-! ## `strconv` and `fmt` -/

/-- Largest `uint64`. -/
def maxUint64 : Nat := 2 ^ 64 - 1

/-- The digit loop of `strconv.ParseUint(s, 10, 64)`: a byte that is not a
decimal digit is a syntax error (`false`), a value leaving `uint64` a range
error (`true`); whichever is met first wins. -/
def parseUintLoop : List Char → Nat → Except Bool Nat
  | [], n => .ok n
  | c :: cs, n =>
    if '0' ≤ c ∧ c ≤ '9' then
      if n ≥ maxUint64 / 10 + 1 then .error true
      else
        let n1 := n * 10 + (c.toNat - '0'.toNat)
        if n1 > maxUint64 then .error true else parseUintLoop cs n1
    else .error false

/-- `strconv.Atoi` where `int` has 64 bits, following `ParseInt(s, 10, 0)`
(the short-input fast path of `Atoi` computes the same result): an optional
sign, then at least one decimal digit; the value must fit `int64`. On a range
error the nearest bound is returned next to the error. -/
def Atoi (s : String) : Int × Option GoError :=
  let neg := s.data.head? = some '-'
  let body := if s.data.head? = some '+' ∨ s.data.head? = some '-' then s.data.tail else s.data
  if body = [] then (0, some (.num s false))
  else
    match parseUintLoop body 0 with
    | .error false => (0, some (.num s false))
    | .error true => (if neg then -(2 ^ 63) else 2 ^ 63 - 1, some (.num s true))
    | .ok un =>
      if ¬ neg ∧ un ≥ 2 ^ 63 then (2 ^ 63 - 1, some (.num s true))
      else if neg ∧ un > 2 ^ 63 then (-(2 ^ 63), some (.num s true))
      else (if neg then -(un : Int) else (un : Int), none)

/-- The verb `%d` of `fmt` on an `int`. -/
def fmtD (i : Int) : String := toString i

/-- The two lowercase hexadecimal digits `fmt` prints for one byte under `%x`. -/
def hexByte (b : Fin 256) : List Char :=
  [Nat.digitChar (b.val / 16), Nat.digitChar (b.val % 16)]

/-- `fmt.Sprintf("%x", u)` for a 16-byte slice `u`: the bytes in order, two
lowercase hexadecimal digits each. -/
def sprintfHex (u : Fin 16 → Fin 256) : String :=
  String.mk ((List.finRange 16).flatMap (fun i => hexByte (u i)))

/-- `i++` on a 64-bit `int`: the successor wraps at `2 ^ 63`. -/
def incr64 (i : Int) : Int := (i + 1 + 2 ^ 63) % 2 ^ 64 - 2 ^ 63

/-! ## The world outside the program -/

/-- A file path as the elements handed to `filepath.Join`. -/
abbrev Path := List String

/-- `filepath.Join`: empty elements are ignored, the others are joined by the
separator. The lexical cleaning of the joined path is not modelled, a path
being kept as its elements. -/
def Join (elems : List String) : Path := elems.filter (· ≠ "")

/-- What the program did to the outside, with the outcome it got:
a command line written to the connection, `ioutil.WriteFile`, `os.Rename`. -/
inductive Event where
  | send (line : String) (err : Option GoError)
  | writeFile (path : Path) (data : List Char) (err : Option GoError)
  | rename (src dst : Path) (err : Option GoError)
  deriving DecidableEq, Repr

/-- The environment of one run. The peer and the operating system are oracles:
`rd` is what the peer will deliver, in order, and `rdErr` the error every read
meets once `rd` is used up (`io.EOF` on an orderly close); `avail` is how many
bytes have arrived when the greeting is read; the `k`-th write to the
connection, `rand.Read`, `WriteFile` and `Rename` get the outcome the oracle
of that name gives at `k`. `trace` records the calls made, oldest first. -/
structure World where
  rd : List Char
  rdErr : GoError
  avail : Nat
  wrErr : Nat → Option GoError
  randRead : Nat → Except GoError (Fin 16 → Fin 256)
  writeErr : Nat → Option GoError
  renameErr : Nat → Option GoError
  nWr : Nat := 0
  nRand : Nat := 0
  nWrite : Nat := 0
  nRename : Nat := 0
  trace : List Event := []

/-- `io.EOF`. -/
def EOF : GoError := .io "EOF"

/-- `io.ErrUnexpectedEOF`. -/
def ErrUnexpectedEOF : GoError := .io "unexpected EOF"

/-- `net.Conn.Read` into a buffer of `cap` bytes: at least one and at most `cap`
of the bytes that have arrived, or the read error when the peer has no more. -/
def connRead (cap : Nat) (w : World) : Except GoError (List Char) × World :=
  if w.rd = [] then (.error w.rdErr, w)
  else
    let n := min cap (max 1 w.avail)
    (.ok (w.rd.take n), { w with rd := w.rd.drop n })

/-! ## `net/textproto` -/

/-- `textproto.Conn.Cmd`: the formatted command line and its terminator are
written and flushed; the write error, if any, is returned. -/
def connCmd (line : String) (w : World) : Option GoError × World :=
  let err := w.wrErr w.nWr
  (err, { w with nWr := w.nWr + 1, trace := w.trace ++ [.send line err] })

/-- `textproto.Reader.ReadLine` over `bufio.Reader.ReadLine`: the bytes up to
the next `\n`, without that `\n` and without one `\r` before it; what is left
of an input that ends without `\n` is a line too; no byte left is the read
error. -/
def ReadLine (w : World) : Except GoError String × World :=
  if w.rd = [] then (.error w.rdErr, w)
  else
    match IndexByte w.rd '\n' with
    | none => (.ok (String.mk w.rd), { w with rd := [] })
    | some m =>
      let line := w.rd.take m
      let line := if line.getLast? = some '\r' then line.dropLast else line
      (.ok (String.mk line), { w with rd := w.rd.drop (m + 1) })

/-- The states of `textproto.dotReader`. -/
inductive DotState where
  | beginLine | dot | dotCR | cr | data | eof
  deriving DecidableEq, Repr

/-- One turn of the loop of `dotReader.Read` on the byte `c` in state `st`: the
next state, the byte written to the output (if any), and whether `c` is put
back (`UnreadByte`). -/
def dotStep (st : DotState) (c : Char) : DotState × Option Char × Bool :=
  match st with
  | .beginLine =>
    if c = '.' then (.dot, none, false)
    else if c = '\r' then (.cr, none, false)
    else (.data, some c, false)
  | .dot =>
    if c = '\r' then (.dotCR, none, false)
    else if c = '\n' then (.eof, none, false)
    else (.data, some c, false)
  | .dotCR =>
    if c = '\n' then (.eof, none, false)
    else (.data, some '\r', true)
  | .cr =>
    if c = '\n' then (.beginLine, some c, false)
    else (.data, some '\r', true)
  | .data =>
    if c = '\r' then (.cr, none, false)
    else if c = '\n' then (.beginLine, some c, false)
    else (.data, some c, false)
  | .eof => (.eof, none, true)

/-- `io.ReadAll` of a `dotReader`: the state machine runs until it reaches
`eof` (the decoded bytes are returned) or the input fails (`io.EOF` becoming
`io.ErrUnexpectedEOF`). `none` only when `fuel` turns did not suffice. -/
def dotLoop (rdErr : GoError) :
    Nat → DotState → List Char → List Char → Option (Except GoError (List Char) × List Char)
  | 0, _, _, _ => none
  | fuel + 1, st, rd, out =>
    if st = .eof then some (.ok out, rd)
    else
      match rd with
      | [] => some (.error (if rdErr = EOF then ErrUnexpectedEOF else rdErr), [])
      | c :: rest =>
        match dotStep st c with
        | (st1, emit, unread) =>
          dotLoop rdErr fuel st1 (if unread then c :: rest else rest) (out ++ emit.toList)

/-- `textproto.Reader.ReadDotBytes`, that is `io.ReadAll(r.DotReader())`. In the
words of the package, the decoded form "rewrites the `\r\n` line endings into
the simpler `\n`, removes leading dot escapes if present, and stops with error
`io.EOF` after consuming (and discarding) the end-of-sequence line". Two turns
for each byte are enough fuel, a byte being put back at most once. -/
def ReadDotBytes (w : World) : Except GoError (List Char) × World :=
  match dotLoop w.rdErr (2 * w.rd.length + 2) .beginLine w.rd [] with
  | some (r, rd) => (r, { w with rd := rd })
  | none => (.error (.io "fuel"), w)

/-! ## `pop3.go`: the session -/

/-- `POP3Conn.Cmd` of `pop3.go`, on the already formatted command. -/
def Cmd (cmd : String) (w : World) : (String × Option GoError) × World :=
  match connCmd cmd w with
  | (some err, w) => (("", some err), w)
  | (none, w) =>
    match ReadLine w with
    | (.error _, w) => (("", none), w)
    | (.ok line, w) =>
      match ParseResponseLine line with
      | (_, _, some err) => (("", some err), w)
      | (ok, rmsg, none) =>
        if !ok then (("", some (.errorf rmsg)), w)
        else ((rmsg, none), w)

/-- `POP3Conn.CmdMulti` of `pop3.go`, on the already formatted command. The
body is `none` where the code returns a nil slice. -/
def CmdMulti (cmd : String) (w : World) :
    (String × Option (List Char) × Option GoError) × World :=
  match connCmd cmd w with
  | (some err, w) => (("", none, some err), w)
  | (none, w) =>
    match ReadLine w with
    | (.error err, w) => (("", none, some err), w)
    | (.ok line, w) =>
      match ParseResponseLine line with
      | (_, _, some err) => (("", none, some err), w)
      | (ok, rmsg, none) =>
        if !ok then (("", none, some (.errorf rmsg)), w)
        else
          match ReadDotBytes w with
          | (.error err, w) => (("", none, some err), w)
          | (.ok data, w) => ((rmsg, some data, none), w)

/-! ## `maildir.go` -/

/-- `SaveToMaildir` of `maildir.go`. -/
def SaveToMaildir (mdpath : String) (msg : List Char) (w : World) : Option GoError × World :=
  match w.randRead w.nRand with
  | .error err => (some err, { w with nRand := w.nRand + 1 })
  | .ok u =>
    let w := { w with nRand := w.nRand + 1 }
    let unique := sprintfHex u
    let tmpFile := Join [mdpath, "tmp", unique]
    let err := w.writeErr w.nWrite
    let w := { w with nWrite := w.nWrite + 1, trace := w.trace ++ [.writeFile tmpFile msg err] }
    match err with
    | some err => (some err, w)
    | none =>
      let newFile := Join [mdpath, "new", unique]
      let err := w.renameErr w.nRename
      let w := { w with nRename := w.nRename + 1,
                        trace := w.trace ++ [.rename tmpFile newFile err] }
      match err with
      | some _ => (none, w)
      | none => (none, w)

/-! ## `main.go`: the session -/

/-- The fields of `Config` the session uses. -/
structure Config where
  Username : String
  Password : String
  MaildirPath : String

/-- How a run ends: `log.Fatal(err)`, `log.Fatalf` with the text it prints, the
end of `main`, or (for the fuelled loop only) fuel used up. -/
inductive Exit where
  | fatal (err : GoError)
  | fatalf (text : String)
  | done
  | outOfFuel
  deriving DecidableEq, Repr

/-- The part of `main` from the `STAT` command to the two `Atoi` calls: the
message count and the mailbox size. -/
def mainStat (w : World) : Except Exit (Int × Int) × World :=
  match Cmd "STAT" w with
  | ((_, some err), w) => (.error (.fatal err), w)
  | ((line, none), w) =>
    let s := Split line ' '
    if s.length ≠ 2 then (.error (.fatalf ("Malformed STAT response: " ++ line)), w)
    else
      match Atoi (s.getD 0 "") with
      | (_, some err) => (.error (.fatal err), w)
      | (nmsg, none) =>
        match Atoi (s.getD 1 "") with
        | (_, some err) => (.error (.fatal err), w)
        | (boxsize, none) => (.ok (nmsg, boxsize), w)

/-- The body of the loop of `main` for the index `i`: retrieve, deliver,
delete. `none` is the end of the body reached, `some` a `log.Fatal`. -/
def loopBody (cfg : Config) (i : Int) (w : World) : Option Exit × World :=
  match CmdMulti ("RETR " ++ fmtD i) w with
  | ((_, _, some err), w) => (some (.fatal err), w)
  | ((line, data, none), w) =>
    let s := SplitN line ' ' 2
    match Atoi (s.headD "") with
    | (_, some err) => (some (.fatal err), w)
    | (_, none) =>
      match SaveToMaildir cfg.MaildirPath (data.getD []) w with
      | (some err, w) => (some (.fatal err), w)
      | (none, w) =>
        match Cmd ("DELE " ++ fmtD i) w with
        | ((_, some err), w) => (some (.fatal err), w)
        | ((_, none), w) => (none, w)

/-- The loop `for i := 1; i <= nmsg; i++` of `main`, started at `i`. `none` is
the loop left normally. -/
def mainLoop (cfg : Config) (nmsg : Int) : Nat → Int → World → Option Exit × World
  | 0, _, w => (some .outOfFuel, w)
  | fuel + 1, i, w =>
    if i ≤ nmsg then
      match loopBody cfg i w with
      | (some e, w) => (some e, w)
      | (none, w) => mainLoop cfg nmsg fuel (incr64 i) w
    else (none, w)

/-- The session of `main`, from the read of the greeting on. Each turn of the
loop that does not end the run takes at least one byte from the peer, hence
the fuel. -/
def mainSession (cfg : Config) (w : World) : Exit × World :=
  match connRead 255 w with
  | (.error err, w) => (.fatal err, w)
  | (.ok buf, w) =>
    match ParseResponseLine (String.mk buf) with
    | (_, _, some err) => (.fatal err, w)
    | (ok, msg, none) =>
      if !ok then (.fatalf ("Server returned error: " ++ msg), w)
      else
        match Cmd ("USER " ++ cfg.Username) w with
        | ((_, some err), w) => (.fatal err, w)
        | ((_, none), w) =>
          match Cmd ("PASS " ++ cfg.Password) w with
          | ((_, some err), w) => (.fatal err, w)
          | ((_, none), w) =>
            match mainStat w with
            | (.error e, w) => (e, w)
            | (.ok (nmsg, _), w) =>
              match mainLoop cfg nmsg (w.rd.length + 1) 1 w with
              | (some e, w) => (e, w)
              | (none, w) =>
                match Cmd "QUIT" w with
                | ((_, some err), w) => (.fatal err, w)
                | ((_, none), w) => (.done, w)

/-! ## Sample environments -/

/-- An environment in which no call fails: the peer delivers `rd` and then
closes, `avail` bytes having arrived when the greeting is read, and every
`rand.Read` draws the bytes `00 11 22 .. ff`. -/
def quietWorld (rd : String) (avail : Nat) : World :=
  { rd := rd.data, rdErr := EOF, avail := avail, wrErr := fun _ => none,
    randRead := fun _ => .ok (fun i => ⟨i.val * 17 % 256, by omega⟩),
    writeErr := fun _ => none, renameErr := fun _ => none }

/-- The configuration of the sample runs. -/
def sampleConfig : Config := ⟨"u", "p", "/home/u/Maildir"⟩

/-- A whole session with one message of five bytes in the mailbox. -/
def oneMessageSession : String :=
  "+OK ready\r\n+OK\r\n+OK\r\n+OK 1 5\r\n+OK 5 octets\r\nhello\r\n.\r\n+OK\r\n+OK bye\r\n"

/-- The sample file name, drawn in `quietWorld`. -/
def sampleName : String := "00112233445566778899aabbccddeeff"

/-- A whole session with three messages in the mailbox, from the reply to
`RETR 1` on. -/
def threeMessages : String :=
  "+OK 7 octets\r\nfirst\r\n.\r\n+OK\r\n+OK 8 octets\r\nsecond\r\n.\r\n+OK\r\n" ++
  "+OK 7 octets\r\nthird\r\n.\r\n+OK\r\n+OK bye\r\n"

/-- The lines of the commands in a trace, in order. -/
def sentLines : List Event → List String
  | [] => []
  | .send line _ :: es => line :: sentLines es
  | _ :: es => sentLines es

/-- The commands `RETR j`, `DELE j` for the `k` indices `j = a, a + 1, ...`,
in order. -/
def loopCommandsFrom (a k : Nat) : List String :=
  (List.range' a k).flatMap (fun j => ["RETR " ++ toString j, "DELE " ++ toString j])

/-- The commands of the retrieval loop for the message indices `1..n`:
`RETR 1`, `DELE 1`, ..., `RETR n`, `DELE n`. -/
def loopCommands (n : Nat) : List String := loopCommandsFrom 1 n

/-- Turns of `dotLoop` that suffice in state `st` on the input `rd`: two for
each byte, one more when a `\r` is held back. -/
def dotMeasure (st : DotState) (rd : List Char) : Nat :=
  2 * rd.length + (if st = .cr ∨ st = .dotCR then 1 else 0) + 1

/-- The loop `dotLoop` with just the fuel it needs. -/
def dotRun (rdErr : GoError) (st : DotState) (rd out : List Char) :
    Option (Except GoError (List Char) × List Char) :=
  dotLoop rdErr (dotMeasure st rd) st rd out

/-- The message indices `a, a + 1, ...`, `k` of them, as `int`s. -/
def loopIndices (a k : Nat) : List Int := (List.range' a k).map Int.ofNat

/-- The turns of the loop body for the indices of a list, in order, until one
ends the run. -/
def runTurns (cfg : Config) : List Int → World → Option Exit × World
  | [], w => (none, w)
  | i :: is, w =>
    match loopBody cfg i w with
    | (some e, w) => (some e, w)
    | (none, w) => runTurns cfg is w

/-- The end of `main` after its loop: the exit of the loop if it ended the run,
the command `QUIT` otherwise. -/
def sessionEnd (r : Option Exit × World) : Exit × World :=
  match r with
  | (some e, w) => (e, w)
  | (none, w) =>
    match Cmd "QUIT" w with
    | ((_, some err), w) => (.fatal err, w)
    | ((_, none), w) => (.done, w)

/-- A whole session with three messages in the mailbox. -/
def threeMessageSession : String :=
  "+OK ready\r\n+OK\r\n+OK\r\n+OK 3 1500\r\n" ++ threeMessages

/-- A session in which the server announces two messages and rejects the
retrieval of the first. -/
def rejectedSession : String :=
  "+OK ready\r\n+OK\r\n+OK\r\n+OK 2 10\r\n-ERR no such message\r\n"

/-- The world of the three-message session when `STAT` is about to be sent:
the greeting has been read and `USER` and `PASS` answered. -/
def threeMessagesAtStat : World :=
  (Cmd "PASS p" (Cmd "USER u" (connRead 255 (quietWorld threeMessageSession 11)).2).2).2

/-- The replies of one turn of the loop for an empty message: `+OK 0` and the
terminator line to `RETR`, `+OK` to `DELE`. -/
def wrapTurn : List Char := "+OK 0\r\n.\r\n+OK\r\n".data

/-- The replies of `k` such turns, then `rest`. -/
def wrapTurns : Nat → List Char → List Char
  | 0, rest => rest
  | k + 1, rest => wrapTurn ++ wrapTurns k rest

/-- An environment in which no call fails, with a session that greets, accepts
`USER` and `PASS`, answers `STAT` by the count `2 ^ 63 - 1` and goes on with
`tail`. -/
def wrapWorldOf (tail : List Char) : World :=
  { quietWorld "" 11 with
    rd := "+OK ready\r\n+OK\r\n+OK\r\n+OK 9223372036854775807 0\r\n".data ++ tail }

/-- The session of a mailbox of `2 ^ 63 - 1` empty messages whose server
answers one turn more. -/
def wrapWorld : World := wrapWorldOf (wrapTurns (2 ^ 63 - 2) (wrapTurn ++ wrapTurn))

/-- No write to the connection, no draw of random bytes and no write of a file
fails in `w`. -/
def Quiet (w : World) : Prop :=
  (∀ k, w.wrErr k = none) ∧ (∀ k, ∃ u, w.randRead k = .ok u) ∧ (∀ k, w.writeErr k = none)

/-! ## Lemmas on splitting -/

theorem IndexByte_eq_none {s : List Char} {c : Char} (h : c ∉ s) :
    IndexByte s c = none := by
  induction s with
  | nil => rfl
  | cons x xs ih =>
    simp only [List.mem_cons, not_or] at h
    have hx : ¬ x = c := fun e => h.1 e.symm
    simp [IndexByte, hx, ih h.2]

theorem IndexByte_append_sep (a b : List Char) (c : Char) (h : c ∉ a) :
    IndexByte (a ++ c :: b) c = some a.length := by
  induction a with
  | nil => simp [IndexByte]
  | cons x xs ih =>
    simp only [List.mem_cons, not_or] at h
    have hx : ¬ x = c := fun e => h.1 e.symm
    simp [IndexByte, hx, ih h.2]

/-- Every string is its leading token, or its leading token, a separator and a
rest. -/
theorem takeWhile_decomp (s : List Char) (c : Char) :
    s = s.takeWhile (· ≠ c) ∨
      ∃ b, s = s.takeWhile (· ≠ c) ++ c :: b := by
  induction s with
  | nil => left; rfl
  | cons x xs ih =>
    by_cases hx : x = c
    · right; exact ⟨xs, by simp [List.takeWhile, hx]⟩
    · rcases ih with h | ⟨b, h⟩
      · left
        simp only [List.takeWhile, ne_eq, hx, not_false_eq_true, decide_True]
        exact congrArg _ h
      · right
        refine ⟨b, ?_⟩
        simp only [List.takeWhile, ne_eq, hx, not_false_eq_true, decide_True, List.cons_append]
        exact congrArg _ h

theorem not_mem_takeWhile_ne (s : List Char) (c : Char) :
    c ∉ s.takeWhile (· ≠ c) := by
  intro h
  have := List.mem_takeWhile_imp h
  simp at this

theorem genSplit_two_of_sep (a b : List Char) (c : Char) (h : c ∉ a) :
    genSplit (a ++ c :: b) c 2 = [a, b] := by
  have hlen : min 2 ((a ++ c :: b).length + 1) - 1 = 1 := by
    simp only [List.length_append, List.length_cons]; omega
  unfold genSplit
  rw [if_neg (by decide), hlen]
  simp [genSplitLoop, IndexByte_append_sep a b c h]

theorem genSplit_two_of_no_sep (a : List Char) (c : Char) (h : c ∉ a) :
    genSplit a c 2 = [a] := by
  unfold genSplit
  simp only [OfNat.ofNat_ne_zero, ↓reduceIte]
  cases hm : min 2 (a.length + 1) - 1 with
  | zero => rfl
  | succ k => simp [genSplitLoop, IndexByte_eq_none h]

theorem SplitN_two_of_sep (a b : String) (c : Char) (h : c ∉ a.data) :
    SplitN (a ++ String.singleton c ++ b) c 2 = [a, b] := by
  have : (a ++ String.singleton c ++ b).data = a.data ++ c :: b.data := by
    simp [String.data_append, String.singleton]
  simp [SplitN, this, genSplit_two_of_sep a.data b.data c h]

theorem SplitN_two_of_no_sep (a : String) (c : Char) (h : c ∉ a.data) :
    SplitN a c 2 = [a] := by
  simp [SplitN, genSplit_two_of_no_sep a.data c h]

/-- The first piece cut by `SplitN(input, " ", 2)` is the leading token. -/
theorem SplitN_head (input : String) :
    (SplitN input ' ' 2).headD "" = leadingToken input := by
  rcases takeWhile_decomp input.data ' ' with h | ⟨b, h⟩
  · have hno : ' ' ∉ input.data := by
      rw [h]; exact not_mem_takeWhile_ne _ _
    simp only [SplitN, genSplit_two_of_no_sep _ _ hno, leadingToken]
    rw [← h]; rfl
  · have hno := not_mem_takeWhile_ne input.data ' '
    generalize hA : input.data.takeWhile (· ≠ ' ') = a at h hno
    simp only [SplitN, leadingToken, hA]
    rw [h, genSplit_two_of_sep a b ' ' hno]; rfl

/-! ## The response parser -/

theorem ParseResponseLine_marker_text (m T : String) (hm : ' ' ∉ m.data) :
    ParseResponseLine (m ++ " " ++ T) =
      if m = "+OK" then (true, T, none)
      else if m = "-ERR" then (false, T, none)
      else (false, "", some (.errorf ("Malformed response status: " ++ m))) := by
  have h : SplitN (m ++ " " ++ T) ' ' 2 = [m, T] := SplitN_two_of_sep m T ' ' hm
  simp [ParseResponseLine, h]

theorem ParseResponseLine_marker_only (m : String) (hm : ' ' ∉ m.data) :
    ParseResponseLine m =
      if m = "+OK" then (true, "", none)
      else if m = "-ERR" then (false, "", none)
      else (false, "", some (.errorf ("Malformed response status: " ++ m))) := by
  have h : SplitN m ' ' 2 = [m] := SplitN_two_of_no_sep m ' ' hm
  simp [ParseResponseLine, h]

theorem ParseResponseLine_ok_text (T : String) :
    ParseResponseLine ("+OK " ++ T) = (true, T, none) := by
  have := ParseResponseLine_marker_text "+OK" T (by decide)
  simpa using this

theorem ParseResponseLine_err_text (T : String) :
    ParseResponseLine ("-ERR " ++ T) = (false, T, none) := by
  have := ParseResponseLine_marker_text "-ERR" T (by decide)
  simpa using this

/-- C4. A well-formed status line is decoded: `+OK T` gives `(true, T)` and
`-ERR T` gives `(false, T)` for every text `T`, spaces in `T` included, and the
bare markers give the empty text; no error in any of the four cases. -/
theorem ParseResponseLine_wellFormed (T : String) :
    ParseResponseLine ("+OK " ++ T) = (true, T, none) ∧
    ParseResponseLine ("-ERR " ++ T) = (false, T, none) ∧
    ParseResponseLine "+OK" = (true, "", none) ∧
    ParseResponseLine "-ERR" = (false, "", none) := by
  exact ⟨ParseResponseLine_ok_text T, ParseResponseLine_err_text T,
    ParseResponseLine_marker_only "+OK" (by decide),
    ParseResponseLine_marker_only "-ERR" (by decide)⟩

/-- C5. `ParseResponseLine` returns an error exactly when the text before the
first space (the whole line when it has no space) is neither `+OK` nor `-ERR`;
the result is then `(false, "")` with the error text
`Malformed response status: ` followed by that token. `MAYBE something` fails
naming `MAYBE`. -/
theorem ParseResponseLine_error_iff (input : String) :
    ((ParseResponseLine input).2.2 ≠ none ↔
      (leadingToken input ≠ "+OK" ∧ leadingToken input ≠ "-ERR")) ∧
    ((ParseResponseLine input).2.2 ≠ none →
      ParseResponseLine input =
        (false, "", some (.errorf ("Malformed response status: " ++ leadingToken input))) ∧
      (ParseResponseLine input).2.2.bind GoError.message =
        some ("Malformed response status: " ++ leadingToken input)) ∧
    ParseResponseLine "MAYBE something" =
      (false, "", some (.errorf "Malformed response status: MAYBE")) := by
  have hhead := SplitN_head input
  refine ⟨?_, ?_, by decide⟩
  · unfold ParseResponseLine
    simp only [hhead]
    by_cases h1 : leadingToken input = "+OK"
    · simp [h1]
    · by_cases h2 : leadingToken input = "-ERR"
      · simp [h2]
      · simp [h1, h2]
  · unfold ParseResponseLine
    simp only [hhead]
    by_cases h1 : leadingToken input = "+OK"
    · simp [h1]
    · by_cases h2 : leadingToken input = "-ERR"
      · simp [h2]
      · simp [h1, h2, GoError.message]

/-- Witness of C5 at `MAYBE something`. -/
theorem ParseResponseLine_error_iff_witness :
    (ParseResponseLine "MAYBE something").2.2 ≠ none ∧
    ParseResponseLine "MAYBE something" =
      (false, "", some (.errorf ("Malformed response status: " ++
        leadingToken "MAYBE something"))) :=
  ⟨by decide, ((ParseResponseLine_error_iff "MAYBE something").2.1 (by decide)).1⟩

/-! ## Swallowed errors -/

/-- C1. With the write to `tmp` succeeding and the rename failing (the
directory `new` is missing), `SaveToMaildir` returns no error: the rename was
attempted, failed, and the failure is dropped. -/
theorem SaveToMaildir_rename_error_dropped :
    (SaveToMaildir "/home/u/Maildir" "hello\n".data
        { quietWorld "" 0 with
          renameErr := fun _ => some (.io "no such file or directory") }).1 = none ∧
    (SaveToMaildir "/home/u/Maildir" "hello\n".data
        { quietWorld "" 0 with
          renameErr := fun _ => some (.io "no such file or directory") }).2.trace =
      [.writeFile ["/home/u/Maildir", "tmp", sampleName] "hello\n".data none,
       .rename ["/home/u/Maildir", "tmp", sampleName] ["/home/u/Maildir", "new", sampleName]
         (some (.io "no such file or directory"))] := by
  decide

/-- C2. A run in which the rename of message 1 fails: the session goes on,
`DELE 1` is sent after the failed rename, and the run ends normally. -/
theorem mainSession_dele_after_failed_rename :
    (mainSession sampleConfig
        { quietWorld oneMessageSession 11 with
          renameErr := fun _ => some (.io "no such file or directory") }).1 = .done ∧
    (mainSession sampleConfig
        { quietWorld oneMessageSession 11 with
          renameErr := fun _ => some (.io "no such file or directory") }).2.trace =
      [.send "USER u" none, .send "PASS p" none, .send "STAT" none, .send "RETR 1" none,
       .writeFile ["/home/u/Maildir", "tmp", sampleName] "hello\n".data none,
       .rename ["/home/u/Maildir", "tmp", sampleName] ["/home/u/Maildir", "new", sampleName]
         (some (.io "no such file or directory")),
       .send "DELE 1" none, .send "QUIT" none] := by
  decide

/-- C3. With the command written and the read of the status line failing
(the connection is reset), `Cmd` returns the empty text and no error, where
`CmdMulti` returns the error of the read. -/
theorem Cmd_read_error_dropped :
    (Cmd "STAT" { quietWorld "" 0 with rdErr := .io "connection reset by peer" }).1 =
      ("", none) ∧
    (CmdMulti "STAT" { quietWorld "" 0 with rdErr := .io "connection reset by peer" }).1 =
      ("", none, some (.io "connection reset by peer")) := by
  decide

/-! ## Rejection by the server -/

theorem connCmd_fst (cmd : String) (w : World) : (connCmd cmd w).1 = w.wrErr w.nWr := rfl

theorem connCmd_rd (cmd : String) (w : World) : (connCmd cmd w).2.rd = w.rd := rfl

theorem connCmd_rdErr (cmd : String) (w : World) : (connCmd cmd w).2.rdErr = w.rdErr := rfl

theorem connCmd_trace (cmd : String) (w : World) :
    (connCmd cmd w).2.trace = w.trace ++ [.send cmd (w.wrErr w.nWr)] := rfl

/-- `ReadLine` looks at the pending input and the read error only. -/
theorem ReadLine_congr (w v : World) (hrd : v.rd = w.rd) (herr : v.rdErr = w.rdErr) :
    (ReadLine v).1 = (ReadLine w).1 ∧ (ReadLine v).2.rd = (ReadLine w).2.rd := by
  unfold ReadLine
  rw [hrd, herr]
  by_cases h : w.rd = []
  · simp [h, hrd]
  · simp only [h, if_false]
    cases IndexByte w.rd (Char.ofNat 10) <;> simp

theorem ReadLine_trace (w : World) : (ReadLine w).2.trace = w.trace := by
  unfold ReadLine
  by_cases h : w.rd = []
  · simp [h]
  · simp only [h, if_false]
    cases IndexByte w.rd (Char.ofNat 10) <;> simp

/-- C6. When the command is written and the status line read is `-ERR T`,
`Cmd` and `CmdMulti` return the empty text and an error whose text is `T`;
`CmdMulti` returns no body and leaves the input as it was after the status
line. -/
theorem rejection_reported (cmd T : String) (w : World)
    (hw : w.wrErr w.nWr = none) (hline : (ReadLine w).1 = .ok ("-ERR " ++ T)) :
    (Cmd cmd w).1 = ("", some (.errorf T)) ∧
    (CmdMulti cmd w).1 = ("", none, some (.errorf T)) ∧
    GoError.message (.errorf T) = some T ∧
    (CmdMulti cmd w).2.rd = (ReadLine w).2.rd := by
  have hc := ReadLine_congr w (connCmd cmd w).2 (connCmd_rd cmd w) (connCmd_rdErr cmd w)
  have hfst := connCmd_fst cmd w
  rcases hcc : connCmd cmd w with ⟨e, w1⟩
  rw [hcc] at hc hfst
  simp only at hc hfst
  rcases hrl : ReadLine w1 with ⟨r, w2⟩
  rw [hrl] at hc
  simp only at hc
  rw [hline] at hc
  have hp := ParseResponseLine_err_text T
  have he : e = none := by rw [hfst, hw]
  subst he
  refine ⟨?_, ?_, rfl, ?_⟩
  · simp [Cmd, hcc, hrl, hc.1, hp]
  · simp [CmdMulti, hcc, hrl, hc.1, hp]
  · simp [CmdMulti, hcc, hrl, hc.1, hp, hc.2]

/-- Witness of C6: the server answers `-ERR no such message`. -/
theorem rejection_reported_witness :
    (Cmd "RETR 7" (quietWorld "-ERR no such message\r\n+OK\r\n" 0)).1 =
      ("", some (.errorf "no such message")) ∧
    (CmdMulti "RETR 7" (quietWorld "-ERR no such message\r\n+OK\r\n" 0)).1 =
      ("", none, some (.errorf "no such message")) ∧
    (CmdMulti "RETR 7" (quietWorld "-ERR no such message\r\n+OK\r\n" 0)).2.rd =
      "+OK\r\n".data := by
  have h := rejection_reported "RETR 7" "no such message"
    (quietWorld "-ERR no such message\r\n+OK\r\n" 0) (by decide) (by rfl)
  exact ⟨h.1, h.2.1, h.2.2.2.trans (by decide)⟩

/-! ## The file name -/

theorem digitChar_hex (n : Nat) (h : n < 16) :
    Nat.digitChar n ∈ "0123456789abcdef".data := by
  interval_cases n <;> decide

theorem hexByte_length (b : Fin 256) : (hexByte b).length = 2 := rfl

theorem hexByte_hex (b : Fin 256) : ∀ c ∈ hexByte b, c ∈ "0123456789abcdef".data := by
  intro c hc
  simp only [hexByte, List.mem_cons, List.mem_singleton, List.not_mem_nil, or_false] at hc
  rcases hc with rfl | rfl
  · exact digitChar_hex _ (by have := b.isLt; omega)
  · exact digitChar_hex _ (by omega)

theorem sprintfHex_length (u : Fin 16 → Fin 256) : (sprintfHex u).length = 32 := by
  have h : List.finRange 16 = [0, 1, 2, 3, 4, 5, 6, 7, 8, 9, 10, 11, 12, 13, 14, 15] := by
    decide
  simp [sprintfHex, String.length, h, hexByte]

theorem sprintfHex_hex (u : Fin 16 → Fin 256) :
    ∀ c ∈ (sprintfHex u).data, c ∈ "0123456789abcdef".data := by
  intro c hc
  simp only [sprintfHex, List.mem_flatMap] at hc
  obtain ⟨i, _, hi⟩ := hc
  exact hexByte_hex (u i) c hi

theorem sprintfHex_ne_empty (u : Fin 16 → Fin 256) : sprintfHex u ≠ "" := by
  intro h
  have := sprintfHex_length u
  rw [h] at this
  simp at this

theorem Join_last (mdpath sub name : String) (hs : sub ≠ "") (hn : name ≠ "") :
    (Join [mdpath, sub, name]).getLast? = some name := by
  by_cases hm : mdpath = "" <;> simp [Join, List.filter, hm, hs, hn]

/-- C8. The name drawn by `SaveToMaildir` from the 16 random bytes `u` has 32
characters, each one of `0`-`9`, `a`-`f`; the file is written under `tmp` by
that name and, the write succeeding, renamed to the same name under `new`. -/
theorem SaveToMaildir_name (mdpath : String) (msg : List Char) (w : World)
    (u : Fin 16 → Fin 256) (hrand : w.randRead w.nRand = .ok u) :
    (sprintfHex u).length = 32 ∧
    (∀ c ∈ (sprintfHex u).data, c ∈ "0123456789abcdef".data) ∧
    (SaveToMaildir mdpath msg w).2.trace =
      w.trace ++
        (.writeFile (Join [mdpath, "tmp", sprintfHex u]) msg (w.writeErr w.nWrite) ::
          match w.writeErr w.nWrite with
          | some _ => []
          | none =>
            [.rename (Join [mdpath, "tmp", sprintfHex u]) (Join [mdpath, "new", sprintfHex u])
              (w.renameErr w.nRename)]) ∧
    (Join [mdpath, "tmp", sprintfHex u]).getLast? = some (sprintfHex u) ∧
    (Join [mdpath, "new", sprintfHex u]).getLast? = some (sprintfHex u) := by
  refine ⟨sprintfHex_length u, sprintfHex_hex u, ?_,
    Join_last _ _ _ (by decide) (sprintfHex_ne_empty u),
    Join_last _ _ _ (by decide) (sprintfHex_ne_empty u)⟩
  unfold SaveToMaildir
  rw [hrand]
  cases hwr : w.writeErr w.nWrite with
  | some e => simp [hwr]
  | none =>
    cases hre : w.renameErr w.nRename <;> simp [hwr, hre]

/-- Witness of C8: the bytes `00 11 .. ff` give the name
`00112233445566778899aabbccddeeff` under `tmp` and under `new`. -/
theorem SaveToMaildir_name_witness :
    (SaveToMaildir "/home/u/Maildir" "hello\n".data (quietWorld "" 0)).2.trace =
      [.writeFile ["/home/u/Maildir", "tmp", "00112233445566778899aabbccddeeff"]
          "hello\n".data none,
       .rename ["/home/u/Maildir", "tmp", "00112233445566778899aabbccddeeff"]
          ["/home/u/Maildir", "new", "00112233445566778899aabbccddeeff"] none] :=
  (SaveToMaildir_name "/home/u/Maildir" "hello\n".data (quietWorld "" 0)
    (fun i => ⟨i.val * 17 % 256, by omega⟩) rfl).2.2.1.trans (by decide)

/-! ## The greeting -/

theorem connRead_trace (n : Nat) (w : World) : (connRead n w).2.trace = w.trace := by
  unfold connRead
  by_cases h : w.rd = [] <;> simp [h]

/-- C10. `ParseResponseLine` keeps the line terminator: a marker followed at
once by `\r\n` or `\n` is a malformed status, so a run whose greeting read
returns such bytes ends at once with that error, nothing having been sent; and
the text of `+OK T\r\n` is `T\r\n`. -/
theorem greeting_terminator_kept (T : String) (cfg : Config) (w : World) :
    (∀ m ∈ ["+OK", "-ERR"], ∀ t ∈ ["\r\n", "\n"],
      ParseResponseLine (m ++ t) =
        (false, "", some (.errorf ("Malformed response status: " ++ m ++ t)))) ∧
    (∀ m ∈ ["+OK", "-ERR"], ∀ t ∈ ["\r\n", "\n"],
      (connRead 255 w).1 = .ok (m ++ t).data →
        (mainSession cfg w).1 =
          .fatal (.errorf ("Malformed response status: " ++ m ++ t)) ∧
        (mainSession cfg w).2.trace = w.trace) ∧
    ParseResponseLine ("+OK " ++ T ++ "\r\n") = (true, T ++ "\r\n", none) := by
  have h1 : ∀ m ∈ ["+OK", "-ERR"], ∀ t ∈ ["\r\n", "\n"],
      ParseResponseLine (m ++ t) =
        (false, "", some (.errorf ("Malformed response status: " ++ m ++ t))) := by
    decide
  refine ⟨h1, ?_, ?_⟩
  · intro m hm t ht hread
    have htr := connRead_trace 255 w
    rcases hcr : connRead 255 w with ⟨r, w1⟩
    rw [hcr] at hread htr
    simp only at hread htr
    subst hread
    have hp := h1 m hm t ht
    have hp2 : ParseResponseLine (String.mk (m ++ t).data) =
        (false, "", some (.errorf ("Malformed response status: " ++ m ++ t))) := hp
    unfold mainSession
    rw [hcr]
    dsimp only
    rw [hp2]
    exact ⟨rfl, htr⟩
  · have := ParseResponseLine_ok_text (T ++ "\r\n")
    rwa [← String.append_assoc] at this

/-- Witness of C10: the server greets with a bare `+OK`. -/
theorem greeting_terminator_kept_witness :
    (mainSession sampleConfig (quietWorld "+OK\r\n+OK\r\n" 5)).1 =
      .fatal (.errorf "Malformed response status: +OK\r\n") :=
  ((greeting_terminator_kept "" sampleConfig (quietWorld "+OK\r\n+OK\r\n" 5)).2.1
    "+OK" (by decide) "\r\n" (by decide) (by rfl)).1

/-! ## The dot-encoded body -/

theorem dotStep_measure (st : DotState) (c : Char) (rest : List Char) (h : st ≠ .eof) :
    dotMeasure (dotStep st c).1 (if (dotStep st c).2.2 then c :: rest else rest) <
      dotMeasure st (c :: rest) := by
  cases st <;> simp only [dotStep, dotMeasure] <;> (try exact absurd rfl h) <;>
    split_ifs <;> simp at * <;> omega

theorem dotLoop_succ (e : GoError) (f : Nat) (st : DotState) (c : Char) (rest out : List Char)
    (h : st ≠ .eof) :
    dotLoop e (f + 1) st (c :: rest) out =
      dotLoop e f (dotStep st c).1 (if (dotStep st c).2.2 then c :: rest else rest)
        (out ++ (dotStep st c).2.1.toList) := by
  rw [dotLoop]
  simp only [h, if_false]

/-- Above `dotMeasure` the fuel does not matter. -/
theorem dotLoop_fuel (e : GoError) :
    ∀ (f1 f2 : Nat) (st : DotState) (rd out : List Char),
      dotMeasure st rd ≤ f1 → dotMeasure st rd ≤ f2 →
      dotLoop e f1 st rd out = dotLoop e f2 st rd out := by
  intro f1
  induction f1 with
  | zero => intro f2 st rd out h1; simp [dotMeasure] at h1
  | succ f1 ih =>
    intro f2 st rd out h1 h2
    cases f2 with
    | zero => simp [dotMeasure] at h2
    | succ f2 =>
      by_cases hst : st = .eof
      · simp [dotLoop, hst]
      · cases rd with
        | nil => simp [dotLoop, hst]
        | cons c rest =>
          rw [dotLoop_succ e f1 st c rest out hst, dotLoop_succ e f2 st c rest out hst]
          have hm := dotStep_measure st c rest hst
          exact ih f2 _ _ _ (by omega) (by omega)

theorem dotLoop_eq_dotRun (e : GoError) (f : Nat) (st : DotState) (rd out : List Char)
    (h : dotMeasure st rd ≤ f) : dotLoop e f st rd out = dotRun e st rd out :=
  dotLoop_fuel e f _ st rd out h (le_refl _)

theorem dotRun_eof (e : GoError) (rd out : List Char) :
    dotRun e .eof rd out = some (.ok out, rd) := by
  simp [dotRun, dotMeasure, dotLoop]

theorem dotRun_nil (e : GoError) (st : DotState) (out : List Char) (h : st ≠ .eof) :
    dotRun e st [] out = some (.error (if e = EOF then ErrUnexpectedEOF else e), []) := by
  simp [dotRun, dotMeasure, dotLoop, h]

theorem dotRun_cons (e : GoError) (st : DotState) (c : Char) (rest out : List Char)
    (h : st ≠ .eof) :
    dotRun e st (c :: rest) out =
      dotRun e (dotStep st c).1 (if (dotStep st c).2.2 then c :: rest else rest)
        (out ++ (dotStep st c).2.1.toList) := by
  have hm := dotStep_measure st c rest h
  have hpos : dotMeasure st (c :: rest) = (dotMeasure st (c :: rest) - 1) + 1 := by
    simp [dotMeasure]
  unfold dotRun
  rw [hpos, dotLoop_succ e _ st c rest out h]
  exact dotLoop_fuel e _ _ _ _ _ (by omega) (le_refl _)

/-- The fuel `ReadDotBytes` gives its loop is never used up. -/
theorem dotRun_isSome (e : GoError) :
    ∀ (n : Nat) (st : DotState) (rd out : List Char),
      dotMeasure st rd ≤ n → (dotRun e st rd out).isSome := by
  intro n
  induction n with
  | zero => intro st rd out h; simp [dotMeasure] at h
  | succ n ih =>
    intro st rd out h
    by_cases hst : st = .eof
    · subst hst; simp [dotRun_eof]
    · cases rd with
      | nil => simp [dotRun_nil e st out hst]
      | cons c rest =>
        rw [dotRun_cons e st c rest out hst]
        have hm := dotStep_measure st c rest hst
        exact ih _ _ _ (by omega)

theorem dotRun_data_cr (e : GoError) (rest out : List Char) :
    dotRun e .data ('\r' :: rest) out = dotRun e .cr rest out := by
  rw [dotRun_cons e _ _ _ _ (by decide)]; simp [dotStep]

theorem dotRun_data_char (e : GoError) (c : Char) (rest out : List Char)
    (h1 : ¬ c = '\r') (h2 : ¬ c = '\n') :
    dotRun e .data (c :: rest) out = dotRun e .data rest (out ++ [c]) := by
  rw [dotRun_cons e _ _ _ _ (by decide)]; simp [dotStep, h1, h2]

theorem dotRun_cr_lf (e : GoError) (rest out : List Char) :
    dotRun e .cr ('\n' :: rest) out = dotRun e .beginLine rest (out ++ ['\n']) := by
  rw [dotRun_cons e _ _ _ _ (by decide)]; simp [dotStep]

theorem dotRun_cr_char (e : GoError) (c : Char) (rest out : List Char) (h : ¬ c = '\n') :
    dotRun e .cr (c :: rest) out = dotRun e .data (c :: rest) (out ++ ['\r']) := by
  rw [dotRun_cons e _ _ _ _ (by decide)]; simp [dotStep, h]

theorem dotRun_begin_cr (e : GoError) (rest out : List Char) :
    dotRun e .beginLine ('\r' :: rest) out = dotRun e .cr rest out := by
  rw [dotRun_cons e _ _ _ _ (by decide)]; simp [dotStep]

theorem dotRun_begin_char (e : GoError) (c : Char) (rest out : List Char)
    (h1 : ¬ c = '.') (h2 : ¬ c = '\r') :
    dotRun e .beginLine (c :: rest) out = dotRun e .data rest (out ++ [c]) := by
  rw [dotRun_cons e _ _ _ _ (by decide)]; simp [dotStep, h1, h2]

theorem dotRun_begin_dot (e : GoError) (rest out : List Char) :
    dotRun e .beginLine ('.' :: rest) out = dotRun e .dot rest out := by
  rw [dotRun_cons e _ _ _ _ (by decide)]; simp [dotStep]

theorem dotRun_dot_cr (e : GoError) (rest out : List Char) :
    dotRun e .dot ('\r' :: rest) out = dotRun e .dotCR rest out := by
  rw [dotRun_cons e _ _ _ _ (by decide)]; simp [dotStep]

theorem dotRun_dotCR_lf (e : GoError) (rest out : List Char) :
    dotRun e .dotCR ('\n' :: rest) out = dotRun e .eof rest out := by
  rw [dotRun_cons e _ _ _ _ (by decide)]; simp [dotStep]

/-- A line without `\n`, followed by `\r\n`, read in the middle of a line or
after a held back `\r`: the line comes out with `\n` for its `\r\n`. -/
theorem dotRun_line (e : GoError) (rest : List Char) :
    ∀ (l : List Char), '\n' ∉ l →
      (∀ (out : List Char), dotRun e .data (l ++ '\r' :: '\n' :: rest) out =
        dotRun e .beginLine rest (out ++ l ++ ['\n'])) ∧
      (∀ (out : List Char), dotRun e .cr (l ++ '\r' :: '\n' :: rest) out =
        dotRun e .beginLine rest (out ++ '\r' :: l ++ ['\n'])) := by
  intro l
  induction l with
  | nil =>
    intro _
    have hd : ∀ (out : List Char), dotRun e .data ('\r' :: '\n' :: rest) out =
        dotRun e .beginLine rest (out ++ ['\n']) := by
      intro out
      rw [dotRun_data_cr, dotRun_cr_lf]
    refine ⟨by simpa using hd, ?_⟩
    intro out
    rw [List.nil_append, dotRun_cr_char e _ _ _ (by decide), hd]
  | cons c l ih =>
    intro hl
    simp only [List.mem_cons, not_or] at hl
    have hc : ¬ c = '\n' := fun h => hl.1 h.symm
    have hd : ∀ (out : List Char), dotRun e .data (c :: l ++ '\r' :: '\n' :: rest) out =
        dotRun e .beginLine rest (out ++ c :: l ++ ['\n']) := by
      intro out
      rw [List.cons_append]
      by_cases hcr : c = '\r'
      · subst hcr
        rw [dotRun_data_cr, (ih hl.2).2]
      · rw [dotRun_data_char e c _ _ hcr hc, (ih hl.2).1]
        simp
    refine ⟨hd, ?_⟩
    intro out
    rw [List.cons_append, dotRun_cr_char e c _ _ hc, ← List.cons_append, hd]
    simp

/-- A line that has no `\n` and does not begin with `.`, followed by `\r\n`,
read at the beginning of a line. -/
theorem dotRun_beginLine (e : GoError) (rest l : List Char)
    (hl : '\n' ∉ l) (hdot : l.head? ≠ some '.') (out : List Char) :
    dotRun e .beginLine (l ++ '\r' :: '\n' :: rest) out =
      dotRun e .beginLine rest (out ++ l ++ ['\n']) := by
  cases l with
  | nil =>
    rw [List.nil_append, dotRun_begin_cr, dotRun_cr_lf]
    simp
  | cons c l =>
    simp only [List.mem_cons, not_or] at hl
    have hcd : ¬ c = '.' := fun h => hdot (by simp [h])
    rw [List.cons_append]
    by_cases hcr : c = '\r'
    · subst hcr
      rw [dotRun_begin_cr, (dotRun_line e rest l hl.2).2]
    · rw [dotRun_begin_char e c _ _ hcd hcr, (dotRun_line e rest l hl.2).1]
      simp

/-- The lines of a body, then the line `.`: the decoded body and what follows
the terminator line. -/
theorem dotRun_lines (e : GoError) (rest : List Char) :
    ∀ (lines : List (List Char)), (∀ l ∈ lines, '\n' ∉ l ∧ l.head? ≠ some '.') →
      ∀ (out : List Char),
        dotRun e .beginLine
            (lines.flatMap (· ++ "\r\n".data) ++ ".\r\n".data ++ rest) out =
          some (.ok (out ++ lines.flatMap (· ++ "\n".data)), rest) := by
  intro lines
  induction lines with
  | nil =>
    intro _ out
    show dotRun e .beginLine ('.' :: '\r' :: '\n' :: rest) out = _
    rw [dotRun_begin_dot, dotRun_dot_cr, dotRun_dotCR_lf, dotRun_eof]
    simp
  | cons l lines ih =>
    intro h out
    have hl := h l (List.mem_cons_self _ _)
    have key : (l :: lines).flatMap (· ++ "\r\n".data) ++ ".\r\n".data ++ rest =
        l ++ '\r' :: '\n' ::
          (lines.flatMap (· ++ "\r\n".data) ++ ".\r\n".data ++ rest) := by
      simp [List.flatMap_cons]
    rw [key, dotRun_beginLine e _ l hl.1 hl.2 out,
      ih (fun l' hl' => h l' (List.mem_cons_of_mem _ hl'))]
    simp [List.flatMap_cons]

/-- The loop of `ReadDotBytes` always ends within its fuel. -/
theorem ReadDotBytes_fuel (w : World) :
    (dotLoop w.rdErr (2 * w.rd.length + 2) .beginLine w.rd []).isSome := by
  rw [dotLoop_eq_dotRun _ _ _ _ _ (by simp [dotMeasure])]
  exact dotRun_isSome _ _ _ _ _ (le_refl _)

theorem ReadDotBytes_lines (w : World) (lines : List (List Char)) (rest : List Char)
    (hrd : w.rd = lines.flatMap (· ++ "\r\n".data) ++ ".\r\n".data ++ rest)
    (hlines : ∀ l ∈ lines, '\n' ∉ l ∧ l.head? ≠ some '.') :
    (ReadDotBytes w).1 = .ok (lines.flatMap (· ++ "\n".data)) ∧
    (ReadDotBytes w).2.rd = rest := by
  have h := dotRun_lines w.rdErr rest lines hlines []
  rw [← hrd, ← dotLoop_eq_dotRun _ (2 * w.rd.length + 2) _ _ _ (by simp [dotMeasure])] at h
  unfold ReadDotBytes
  rw [h]
  simp

/-- C7, as amended. When the status line is a success and the body lines on the
wire, each ended by `\r\n`, hold no `\n` and do not begin with `.`, `CmdMulti`
returns the lines in order up to the terminator line `.`, each ended by `\n`
in place of its `\r\n`, and leaves what follows the terminator line. -/
theorem CmdMulti_body (cmd line rmsg : String) (lines : List (List Char))
    (rest : List Char) (w : World)
    (hw : w.wrErr w.nWr = none)
    (hline : (ReadLine w).1 = .ok line)
    (hok : ParseResponseLine line = (true, rmsg, none))
    (hbody : (ReadLine w).2.rd =
      lines.flatMap (· ++ "\r\n".data) ++ ".\r\n".data ++ rest)
    (hlines : ∀ l ∈ lines, '\n' ∉ l ∧ l.head? ≠ some '.') :
    (CmdMulti cmd w).1 = (rmsg, some (lines.flatMap (· ++ "\n".data)), none) ∧
    (CmdMulti cmd w).2.rd = rest := by
  have hc := ReadLine_congr w (connCmd cmd w).2 (connCmd_rd cmd w) (connCmd_rdErr cmd w)
  have hfst := connCmd_fst cmd w
  rcases hcc : connCmd cmd w with ⟨e, w1⟩
  rw [hcc] at hc hfst
  simp only at hc hfst
  rcases hrl : ReadLine w1 with ⟨r, w2⟩
  rw [hrl] at hc
  simp only at hc
  rw [hline, hbody] at hc
  have he : e = none := by rw [hfst, hw]
  subst he
  have hd := ReadDotBytes_lines w2 lines rest hc.2 hlines
  rcases hrb : ReadDotBytes w2 with ⟨d, w3⟩
  rw [hrb] at hd
  simp only at hd
  simp [CmdMulti, hcc, hrl, hc.1, hok, hrb, hd.1, hd.2]

/-- Witness of C7, as amended: a body of two lines. -/
theorem CmdMulti_body_witness :
    (CmdMulti "RETR 1" (quietWorld "+OK 12 octets\r\nhello\r\nworld\r\n.\r\n+OK\r\n" 0)).1 =
      ("12 octets", some "hello\nworld\n".data, none) ∧
    (CmdMulti "RETR 1" (quietWorld "+OK 12 octets\r\nhello\r\nworld\r\n.\r\n+OK\r\n" 0)).2.rd =
      "+OK\r\n".data :=
  CmdMulti_body "RETR 1" "+OK 12 octets" "12 octets" ["hello".data, "world".data]
    "+OK\r\n".data (quietWorld "+OK 12 octets\r\nhello\r\nworld\r\n.\r\n+OK\r\n" 0)
    (by decide) (by rfl) (by decide) (by decide) (by decide)

/-- C7, as stated, fails: the body `hello\r\n` comes back as `hello\n`, the
terminator of the line is not kept. -/
theorem CmdMulti_body_not_identity :
    (CmdMulti "RETR 1" (quietWorld "+OK 5 octets\r\nhello\r\n.\r\n" 0)).1 =
      ("5 octets", some "hello\n".data, none) ∧
    (CmdMulti "RETR 1" (quietWorld "+OK 5 octets\r\nhello\r\n.\r\n" 0)).1.2.1 ≠
      some "hello\r\n".data := by
  decide

/-! ## Decimal numbers -/

theorem toDigitsCore_eq (n : Nat) :
    ∀ (f : Nat) (ds : List Char), n < f →
      Nat.toDigitsCore 10 f n ds = Nat.toDigits 10 n ++ ds := by
  induction n using Nat.strong_induction_on with
  | _ n ih =>
    intro f ds hf
    cases f with
    | zero => omega
    | succ f =>
      by_cases h0 : n / 10 = 0
      · simp [Nat.toDigits, Nat.toDigitsCore, h0]
      · have hlt : n / 10 < n := Nat.div_lt_self (by omega) (by decide)
        have h1 := ih (n / 10) hlt f (Nat.digitChar (n % 10) :: ds) (by omega)
        have h2 := ih (n / 10) hlt n [Nat.digitChar (n % 10)] hlt
        simp only [Nat.toDigits, Nat.toDigitsCore, h0, if_false] at h1 h2 ⊢
        rw [h1, h2]
        simp

theorem toDigits_small (n : Nat) (h : n < 10) : Nat.toDigits 10 n = [Nat.digitChar n] := by
  have h0 : n / 10 = 0 := by omega
  have h1 : n % 10 = n := by omega
  simp [Nat.toDigits, Nat.toDigitsCore, h0, h1]

theorem toDigits_big (n : Nat) (h : 10 ≤ n) :
    Nat.toDigits 10 n = Nat.toDigits 10 (n / 10) ++ [Nat.digitChar (n % 10)] := by
  have h0 : ¬ n / 10 = 0 := by omega
  have hlt : n / 10 < n := Nat.div_lt_self (by omega) (by decide)
  have h2 := toDigitsCore_eq (n / 10) n [Nat.digitChar (n % 10)] hlt
  simp only [Nat.toDigits, Nat.toDigitsCore, h0, if_false] at h2 ⊢
  exact h2

theorem digitChar_digit (d : Nat) (h : d < 10) :
    '0' ≤ Nat.digitChar d ∧ Nat.digitChar d ≤ '9' ∧
      (Nat.digitChar d).toNat - '0'.toNat = d := by
  interval_cases d <;> decide

theorem toDigits_digits (n : Nat) : ∀ c ∈ Nat.toDigits 10 n, '0' ≤ c ∧ c ≤ '9' := by
  induction n using Nat.strong_induction_on with
  | _ n ih =>
    intro c hc
    by_cases h : n < 10
    · rw [toDigits_small n h] at hc
      simp only [List.mem_singleton] at hc
      subst hc
      exact ⟨(digitChar_digit n h).1, (digitChar_digit n h).2.1⟩
    · rw [toDigits_big n (by omega)] at hc
      simp only [List.mem_append, List.mem_singleton] at hc
      rcases hc with hc | hc
      · exact ih (n / 10) (Nat.div_lt_self (by omega) (by decide)) c hc
      · subst hc
        have := digitChar_digit (n % 10) (by omega)
        exact ⟨this.1, this.2.1⟩

theorem toDigits_ne_nil (n : Nat) : Nat.toDigits 10 n ≠ [] := by
  by_cases h : n < 10
  · rw [toDigits_small n h]; simp
  · rw [toDigits_big n (by omega)]; simp

theorem parseUintLoop_toDigits (n : Nat) :
    n < 2 ^ 64 → ∀ (rest : List Char),
      parseUintLoop (Nat.toDigits 10 n ++ rest) 0 = parseUintLoop rest n := by
  induction n using Nat.strong_induction_on with
  | _ n ih =>
    intro hn rest
    by_cases h : n < 10
    · have hd := digitChar_digit n h
      rw [toDigits_small n h]
      simp only [List.singleton_append, parseUintLoop, hd.1, hd.2.1, and_self, if_true,
        hd.2.2, maxUint64]
      rw [if_neg (by omega), if_neg (by omega)]
      simp
    · have hd := digitChar_digit (n % 10) (by omega)
      rw [toDigits_big n (by omega), List.append_assoc, List.singleton_append,
        ih (n / 10) (Nat.div_lt_self (by omega) (by decide)) (by omega)]
      simp only [parseUintLoop, hd.1, hd.2.1, and_self, if_true, hd.2.2, maxUint64]
      rw [if_neg (by omega), if_neg (by omega)]
      congr 1
      omega

theorem toString_data (n : Nat) : (toString n).data = Nat.toDigits 10 n := rfl

theorem toString_no_space (n : Nat) : ' ' ∉ (toString n).data := by
  intro h
  have := (toDigits_digits n ' ' h).1
  exact absurd this (by decide)

/-- `Atoi` reads back the decimal form of a number that fits `int64`. -/
theorem Atoi_toString (n : Nat) (h : n < 2 ^ 63) : Atoi (toString n) = ((n : Int), none) := by
  have hne := toDigits_ne_nil n
  have hdig := toDigits_digits n
  have hp := parseUintLoop_toDigits n (by omega) []
  rw [List.append_nil] at hp
  unfold Atoi
  rw [toString_data]
  cases hd : Nat.toDigits 10 n with
  | nil => exact absurd hd hne
  | cons c cs =>
    have hc := hdig c (by rw [hd]; simp)
    have h1 : ¬ c = '+' := by
      intro e; subst e; exact absurd hc.1 (by decide)
    have h2 : ¬ c = '-' := by
      intro e; subst e; exact absurd hc.1 (by decide)
    rw [hd] at hp
    simp only [List.head?_cons, Option.some.injEq, h1, h2, or_self, if_false]
    rw [hp]
    simp only [parseUintLoop]
    simp
    omega

/-! ## The status query -/

theorem Count_zero (a : List Char) (c : Char) (h : c ∉ a) : Count a c = 0 := by
  unfold Count
  rw [List.length_eq_zero, List.filter_eq_nil_iff]
  intro x hx
  simp only [decide_eq_true_eq]
  rintro rfl
  exact h hx

theorem Count_sep (a b : List Char) (c : Char) (ha : c ∉ a) (hb : c ∉ b) :
    Count (a ++ c :: b) c = 1 := by
  have h1 := Count_zero a c ha
  have h2 := Count_zero b c hb
  unfold Count at *
  simp [List.filter_cons, h1, h2]

theorem Split_two (a b : String) (ha : ' ' ∉ a.data) (hb : ' ' ∉ b.data) :
    Split (a ++ " " ++ b) ' ' = [a, b] := by
  have hd : (a ++ " " ++ b).data = a.data ++ ' ' :: b.data := by
    simp [String.data_append]
  unfold Split
  rw [hd, Count_sep _ _ _ ha hb, genSplit_two_of_sep _ _ _ ha]
  rfl

/-- `Cmd` on a command that is written and answered by a success line. -/
theorem Cmd_ok (cmd line rmsg : String) (w : World)
    (hw : w.wrErr w.nWr = none) (hline : (ReadLine w).1 = .ok line)
    (hok : ParseResponseLine line = (true, rmsg, none)) :
    (Cmd cmd w).1 = (rmsg, none) := by
  have hc := ReadLine_congr w (connCmd cmd w).2 (connCmd_rd cmd w) (connCmd_rdErr cmd w)
  have hfst := connCmd_fst cmd w
  rcases hcc : connCmd cmd w with ⟨e, w1⟩
  rw [hcc] at hc hfst
  simp only at hc hfst
  rcases hrl : ReadLine w1 with ⟨r, w2⟩
  rw [hrl] at hc
  simp only at hc
  rw [hline] at hc
  have he : e = none := by rw [hfst, hw]
  subst he
  simp [Cmd, hcc, hrl, hc.1, hok]

theorem mainStat_ok (n s : Nat) (hn : n < 2 ^ 63) (hs : s < 2 ^ 63) (w : World)
    (hw : w.wrErr w.nWr = none)
    (hline : (ReadLine w).1 = .ok ("+OK " ++ toString n ++ " " ++ toString s)) :
    (mainStat w).1 = .ok ((n : Int), (s : Int)) := by
  have hp : ParseResponseLine ("+OK " ++ toString n ++ " " ++ toString s) =
      (true, toString n ++ " " ++ toString s, none) := by
    have := ParseResponseLine_ok_text (toString n ++ " " ++ toString s)
    rwa [← String.append_assoc, ← String.append_assoc] at this
  have hcmd := Cmd_ok "STAT" _ _ w hw hline hp
  rcases hc : Cmd "STAT" w with ⟨⟨l, e⟩, w1⟩
  rw [hc] at hcmd
  simp only [Prod.mk.injEq] at hcmd
  obtain ⟨rfl, rfl⟩ := hcmd
  have hsp := Split_two (toString n) (toString s) (toString_no_space n) (toString_no_space s)
  simp [mainStat, hc, hsp, Atoi_toString n hn, Atoi_toString s hs]

/-! ## The trace of the loop -/

theorem sentLines_append (a b : List Event) :
    sentLines (a ++ b) = sentLines a ++ sentLines b := by
  induction a with
  | nil => rfl
  | cons x xs ih => cases x <;> simp [sentLines, ih]

theorem ReadDotBytes_trace (w : World) : (ReadDotBytes w).2.trace = w.trace := by
  unfold ReadDotBytes
  cases dotLoop w.rdErr (2 * w.rd.length + 2) .beginLine w.rd [] with
  | none => rfl
  | some r => rfl

theorem Cmd_trace (cmd : String) (w : World) :
    (Cmd cmd w).2.trace = w.trace ++ [.send cmd (w.wrErr w.nWr)] := by
  have ht := connCmd_trace cmd w
  rcases hcc : connCmd cmd w with ⟨e, w1⟩
  rw [hcc] at ht
  simp only at ht
  unfold Cmd
  rw [hcc]
  cases e with
  | some err => exact ht
  | none =>
    dsimp only
    have hrt := ReadLine_trace w1
    rcases hrl : ReadLine w1 with ⟨r, w2⟩
    rw [hrl] at hrt
    simp only at hrt
    cases r with
    | error e1 => dsimp only; rw [hrt]; exact ht
    | ok line =>
      dsimp only
      rcases hp : ParseResponseLine line with ⟨ok, rmsg, err⟩
      cases err <;> cases ok <;> simp [hrt, ht]

theorem CmdMulti_trace (cmd : String) (w : World) :
    (CmdMulti cmd w).2.trace = w.trace ++ [.send cmd (w.wrErr w.nWr)] := by
  have ht := connCmd_trace cmd w
  rcases hcc : connCmd cmd w with ⟨e, w1⟩
  rw [hcc] at ht
  simp only at ht
  unfold CmdMulti
  rw [hcc]
  cases e with
  | some err => exact ht
  | none =>
    dsimp only
    have hrt := ReadLine_trace w1
    rcases hrl : ReadLine w1 with ⟨r, w2⟩
    rw [hrl] at hrt
    simp only at hrt
    cases r with
    | error e1 => dsimp only; rw [hrt]; exact ht
    | ok line =>
      dsimp only
      rcases hp : ParseResponseLine line with ⟨ok, rmsg, err⟩
      have hdt := ReadDotBytes_trace w2
      rcases hrb : ReadDotBytes w2 with ⟨d, w3⟩
      rw [hrb] at hdt
      simp only at hdt
      cases err <;> cases ok <;> cases d <;> simp [hrb, hrt, ht, hdt]

theorem SaveToMaildir_sent (mdpath : String) (msg : List Char) (w : World) :
    ∃ ext, (SaveToMaildir mdpath msg w).2.trace = w.trace ++ ext ∧ sentLines ext = [] := by
  unfold SaveToMaildir
  cases w.randRead w.nRand with
  | error e => exact ⟨[], by simp, rfl⟩
  | ok u =>
    cases hwr : w.writeErr w.nWrite with
    | some e =>
      refine ⟨[.writeFile (Join [mdpath, "tmp", sprintfHex u]) msg (some e)], ?_, rfl⟩
      simp [hwr]
    | none =>
      refine ⟨[.writeFile (Join [mdpath, "tmp", sprintfHex u]) msg none,
        .rename (Join [mdpath, "tmp", sprintfHex u]) (Join [mdpath, "new", sprintfHex u])
          (w.renameErr w.nRename)], ?_, rfl⟩
      cases hre : w.renameErr w.nRename <;> simp [hwr, hre]

/-- One turn of the loop sends `RETR i` and, unless it ends the run before,
`DELE i`, in this order and nothing else. -/
theorem loopBody_sent (cfg : Config) (i : Int) (w : World) :
    ∃ ext, (loopBody cfg i w).2.trace = w.trace ++ ext ∧
      ((loopBody cfg i w).1 = none →
        sentLines ext = ["RETR " ++ fmtD i, "DELE " ++ fmtD i]) ∧
      (sentLines ext = ["RETR " ++ fmtD i] ∨
        sentLines ext = ["RETR " ++ fmtD i, "DELE " ++ fmtD i]) := by
  have t1 := CmdMulti_trace ("RETR " ++ fmtD i) w
  unfold loopBody
  rcases h1 : CmdMulti ("RETR " ++ fmtD i) w with ⟨⟨line, data, err⟩, w1⟩
  rw [h1] at t1
  simp only at t1
  cases err with
  | some e => exact ⟨_, t1, by simp, Or.inl rfl⟩
  | none =>
    dsimp only
    rcases h2 : Atoi ((SplitN line ' ' 2).headD "") with ⟨v, err2⟩
    cases err2 with
    | some e => exact ⟨_, t1, by simp, Or.inl rfl⟩
    | none =>
      dsimp only
      obtain ⟨ext2, t3, hs3⟩ := SaveToMaildir_sent cfg.MaildirPath (data.getD []) w1
      rcases h3 : SaveToMaildir cfg.MaildirPath (data.getD []) w1 with ⟨err3, w2⟩
      rw [h3] at t3
      simp only at t3
      cases err3 with
      | some e =>
        refine ⟨_, by dsimp only; rw [t3, t1, List.append_assoc], by simp, Or.inl ?_⟩
        simp [sentLines_append, hs3, sentLines]
      | none =>
        dsimp only
        have t4 := Cmd_trace ("DELE " ++ fmtD i) w2
        rcases h4 : Cmd ("DELE " ++ fmtD i) w2 with ⟨⟨l4, err4⟩, w3⟩
        rw [h4] at t4
        simp only at t4
        have hs : sentLines ([Event.send ("RETR " ++ fmtD i) (w.wrErr w.nWr)] ++ ext2 ++
            [Event.send ("DELE " ++ fmtD i) (w2.wrErr w2.nWr)]) =
            ["RETR " ++ fmtD i, "DELE " ++ fmtD i] := by
          simp [sentLines_append, hs3, sentLines]
        have ht : w3.trace = w.trace ++ ([Event.send ("RETR " ++ fmtD i) (w.wrErr w.nWr)] ++
            ext2 ++ [Event.send ("DELE " ++ fmtD i) (w2.wrErr w2.nWr)]) := by
          rw [t4, t3, t1]; simp
        cases err4 with
        | some e => exact ⟨_, ht, fun _ => hs, Or.inr hs⟩
        | none => exact ⟨_, ht, fun _ => hs, Or.inr hs⟩

theorem fmtD_natCast (a : Nat) : fmtD ((a : Nat) : Int) = toString a := rfl

theorem incr64_le (i : Int) : incr64 i ≤ 2 ^ 63 - 1 := by
  unfold incr64
  omega

theorem incr64_natCast (a : Nat) (h : a + 1 < 2 ^ 63) : incr64 (a : Int) = ((a + 1 : Nat) : Int) := by
  unfold incr64
  push_cast
  omega

theorem loopCommandsFrom_succ (a k : Nat) :
    loopCommandsFrom a (k + 1) =
      ["RETR " ++ toString a, "DELE " ++ toString a] ++ loopCommandsFrom (a + 1) k := by
  simp [loopCommandsFrom, List.range'_succ]

/-- The loop only adds to the trace. -/
theorem mainLoop_trace (cfg : Config) (nmsg : Int) :
    ∀ (fuel : Nat) (i : Int) (w : World),
      ∃ ext, (mainLoop cfg nmsg fuel i w).2.trace = w.trace ++ ext := by
  intro fuel
  induction fuel with
  | zero => intro i w; exact ⟨[], by simp [mainLoop]⟩
  | succ fuel ih =>
    intro i w
    rw [mainLoop]
    by_cases hi : i ≤ nmsg
    · rw [if_pos hi]
      obtain ⟨ext1, t1, -, -⟩ := loopBody_sent cfg i w
      rcases hb : loopBody cfg i w with ⟨r, w1⟩
      rw [hb] at t1
      simp only at t1
      cases r with
      | some e => exact ⟨ext1, t1⟩
      | none =>
        obtain ⟨ext2, t2⟩ := ih (incr64 i) w1
        exact ⟨ext1 ++ ext2, by dsimp only; rw [t2, t1, List.append_assoc]⟩
    · rw [if_neg hi]
      exact ⟨[], by simp⟩

/-! ## The fuel of the loop is enough -/

theorem ReadLine_rd (w : World) :
    (ReadLine w).2.rd.length ≤ w.rd.length ∧
    ∀ line, (ReadLine w).1 = .ok line → (ReadLine w).2.rd.length < w.rd.length := by
  unfold ReadLine
  by_cases h : w.rd = []
  · simp [h]
  · have hpos : 0 < w.rd.length := List.length_pos.mpr h
    simp only [h, if_false]
    cases IndexByte w.rd (Char.ofNat 10) with
    | none => simp [hpos]
    | some m => simp only [List.length_drop]; exact ⟨by omega, fun _ _ => by omega⟩

theorem dotLoop_rd (e : GoError) :
    ∀ (fuel : Nat) (st : DotState) (rd out : List Char)
      (r : Except GoError (List Char)) (rd1 : List Char),
      dotLoop e fuel st rd out = some (r, rd1) → rd1.length ≤ rd.length := by
  intro fuel
  induction fuel with
  | zero => intro st rd out r rd1 h; simp [dotLoop] at h
  | succ fuel ih =>
    intro st rd out r rd1 h
    by_cases hst : st = .eof
    · simp only [dotLoop, hst, if_true, Option.some.injEq, Prod.mk.injEq] at h
      rw [← h.2]
    · cases rd with
      | nil =>
        simp only [dotLoop, hst, if_false, Option.some.injEq, Prod.mk.injEq] at h
        rw [← h.2]
      | cons c rest =>
        rw [dotLoop_succ e fuel st c rest out hst] at h
        have := ih _ _ _ _ _ h
        split_ifs at this <;> simp only [List.length_cons] at * <;> omega

theorem ReadDotBytes_rd (w : World) : (ReadDotBytes w).2.rd.length ≤ w.rd.length := by
  unfold ReadDotBytes
  cases h : dotLoop w.rdErr (2 * w.rd.length + 2) .beginLine w.rd [] with
  | none => simp
  | some r =>
    obtain ⟨r, rd1⟩ := r
    exact dotLoop_rd _ _ _ _ _ _ _ h

theorem Cmd_rd (cmd : String) (w : World) : (Cmd cmd w).2.rd.length ≤ w.rd.length := by
  have hr := connCmd_rd cmd w
  rcases hcc : connCmd cmd w with ⟨e, w1⟩
  rw [hcc] at hr
  simp only at hr
  unfold Cmd
  rw [hcc]
  cases e with
  | some err => dsimp only; rw [hr]
  | none =>
    dsimp only
    have hl := (ReadLine_rd w1).1
    rcases hrl : ReadLine w1 with ⟨r, w2⟩
    rw [hrl, hr] at hl
    simp only at hl
    cases r with
    | error e1 => exact hl
    | ok line =>
      dsimp only
      rcases hp : ParseResponseLine line with ⟨ok, rmsg, err⟩
      cases err <;> cases ok <;> simp [hl]

theorem CmdMulti_rd (cmd : String) (w : World) (h : (CmdMulti cmd w).1.2.2 = none) :
    (CmdMulti cmd w).2.rd.length < w.rd.length := by
  have hr := connCmd_rd cmd w
  rcases hcc : connCmd cmd w with ⟨e, w1⟩
  rw [hcc] at hr
  simp only at hr
  unfold CmdMulti at h ⊢
  rw [hcc] at h ⊢
  cases e with
  | some err => simp at h
  | none =>
    dsimp only at h ⊢
    have hl := (ReadLine_rd w1).2
    rcases hrl : ReadLine w1 with ⟨r, w2⟩
    rw [hrl, hr] at hl
    rw [hrl] at h
    simp only at hl
    cases r with
    | error e1 => simp at h
    | ok line =>
      have hl2 := hl line rfl
      dsimp only at h ⊢
      rcases hp : ParseResponseLine line with ⟨ok, rmsg, err⟩
      rw [hp] at h
      have hd := ReadDotBytes_rd w2
      rcases hrb : ReadDotBytes w2 with ⟨d, w3⟩
      rw [hrb] at hd h
      simp only at hd
      cases err <;> cases ok <;> cases d <;> (simp at h ⊢; try omega)

theorem SaveToMaildir_rd (mdpath : String) (msg : List Char) (w : World) :
    (SaveToMaildir mdpath msg w).2.rd = w.rd := by
  unfold SaveToMaildir
  cases w.randRead w.nRand with
  | error e => rfl
  | ok u =>
    cases hwr : w.writeErr w.nWrite with
    | some e => simp [hwr]
    | none => cases hre : w.renameErr w.nRename <;> simp [hwr, hre]

/-- A turn of the loop ends the run with `log.Fatal`, or goes on having taken
at least one byte from the peer. -/
theorem loopBody_exit (cfg : Config) (i : Int) (w : World) :
    (∃ err, (loopBody cfg i w).1 = some (.fatal err)) ∨
    ((loopBody cfg i w).1 = none ∧ (loopBody cfg i w).2.rd.length < w.rd.length) := by
  unfold loopBody
  have h1 := CmdMulti_rd ("RETR " ++ fmtD i) w
  rcases hc : CmdMulti ("RETR " ++ fmtD i) w with ⟨⟨line, data, err⟩, w1⟩
  rw [hc] at h1
  simp only at h1
  cases err with
  | some e => exact Or.inl ⟨e, rfl⟩
  | none =>
    have h1 := h1 rfl
    dsimp only
    rcases h2 : Atoi ((SplitN line ' ' 2).headD "") with ⟨v, err2⟩
    cases err2 with
    | some e => exact Or.inl ⟨e, rfl⟩
    | none =>
      dsimp only
      have h3 := SaveToMaildir_rd cfg.MaildirPath (data.getD []) w1
      rcases hs : SaveToMaildir cfg.MaildirPath (data.getD []) w1 with ⟨err3, w2⟩
      rw [hs] at h3
      simp only at h3
      cases err3 with
      | some e => exact Or.inl ⟨e, rfl⟩
      | none =>
        dsimp only
        have h4 := Cmd_rd ("DELE " ++ fmtD i) w2
        rcases hd : Cmd ("DELE " ++ fmtD i) w2 with ⟨⟨l4, err4⟩, w3⟩
        rw [hd, h3] at h4
        simp only at h4
        cases err4 with
        | some e => exact Or.inl ⟨e, rfl⟩
        | none => exact Or.inr ⟨rfl, by dsimp only; omega⟩

/-- With more fuel than bytes to come the loop never stops for want of fuel. -/
theorem mainLoop_fuel (cfg : Config) (nmsg : Int) :
    ∀ (fuel : Nat) (i : Int) (w : World), w.rd.length < fuel →
      (mainLoop cfg nmsg fuel i w).1 ≠ some .outOfFuel := by
  intro fuel
  induction fuel with
  | zero => intro i w h; omega
  | succ fuel ih =>
    intro i w h
    rw [mainLoop]
    by_cases hi : i ≤ nmsg
    · rw [if_pos hi]
      have hb := loopBody_exit cfg i w
      rcases hlb : loopBody cfg i w with ⟨r, w1⟩
      rw [hlb] at hb
      simp only at hb
      rcases hb with ⟨err, he⟩ | ⟨hn, hlen⟩
      · subst he; simp
      · subst hn
        exact ih (incr64 i) w1 (by omega)
    · rw [if_neg hi]; simp

theorem mainStat_exit (w : World) (h : (mainStat w).1 = .error .outOfFuel) : False := by
  unfold mainStat at h
  rcases hc : Cmd "STAT" w with ⟨⟨line, err⟩, w1⟩
  rw [hc] at h
  cases err with
  | some e => simp at h
  | none =>
    dsimp only at h
    split_ifs at h
    · simp at h
    · rcases h1 : Atoi ((Split line ' ').getD 0 "") with ⟨v1, e1⟩
      rw [h1] at h
      cases e1 with
      | some e => simp at h
      | none =>
        dsimp only at h
        rcases h2 : Atoi ((Split line ' ').getD 1 "") with ⟨v2, e2⟩
        rw [h2] at h
        cases e2 <;> simp at h

/-- The session never stops for want of fuel. -/
theorem mainSession_fuel (cfg : Config) (w : World) :
    (mainSession cfg w).1 ≠ .outOfFuel := by
  unfold mainSession
  rcases connRead 255 w with ⟨r, w1⟩
  cases r with
  | error e => simp
  | ok buf =>
    dsimp only
    rcases ParseResponseLine (String.mk buf) with ⟨ok, msg, err⟩
    cases err with
    | some e => simp
    | none =>
      cases ok with
      | false => simp
      | true =>
        simp only [Bool.not_true, Bool.false_eq_true, if_false]
        rcases Cmd ("USER " ++ cfg.Username) w1 with ⟨⟨l2, e2⟩, w2⟩
        cases e2 with
        | some e => simp
        | none =>
          dsimp only
          rcases Cmd ("PASS " ++ cfg.Password) w2 with ⟨⟨l3, e3⟩, w3⟩
          cases e3 with
          | some e => simp
          | none =>
            dsimp only
            have hst := mainStat_exit w3
            rcases hms : mainStat w3 with ⟨r4, w4⟩
            rw [hms] at hst
            cases r4 with
            | error e =>
              dsimp only
              intro h
              exact hst (by rw [h])
            | ok v =>
              obtain ⟨nmsg, boxsize⟩ := v
              dsimp only
              have hf := mainLoop_fuel cfg nmsg (w4.rd.length + 1) 1 w4 (by omega)
              rcases hml : mainLoop cfg nmsg (w4.rd.length + 1) 1 w4 with ⟨r5, w5⟩
              rw [hml] at hf
              cases r5 with
              | some e =>
                dsimp only
                intro h
                exact hf (by rw [h])
              | none =>
                dsimp only
                rcases Cmd "QUIT" w5 with ⟨⟨l6, e6⟩, w6⟩
                cases e6 <;> simp

/-! ## From the status query to the end of the session -/

/-- The session, once the greeting, `USER` and `PASS` have gone through and
`STAT` has given a count: the loop on that count, started at 1, then the end. -/
theorem mainSession_from_stat (cfg : Config) (w w1 w2 w3 w4 : World) (buf : List Char)
    (g l1 l2 : String) (nmsg boxsize : Int)
    (hgreet : connRead 255 w = (.ok buf, w1))
    (hg : ParseResponseLine (String.mk buf) = (true, g, none))
    (huser : Cmd ("USER " ++ cfg.Username) w1 = ((l1, none), w2))
    (hpass : Cmd ("PASS " ++ cfg.Password) w2 = ((l2, none), w3))
    (hstat : mainStat w3 = (.ok (nmsg, boxsize), w4)) :
    mainSession cfg w = sessionEnd (mainLoop cfg nmsg (w4.rd.length + 1) 1 w4) := by
  unfold mainSession
  rw [hgreet]
  dsimp only
  rw [hg]
  simp only [Bool.not_true, Bool.false_eq_true, if_false]
  rw [huser]
  dsimp only
  rw [hpass]
  dsimp only
  rw [hstat]
  dsimp only
  unfold sessionEnd
  rcases mainLoop cfg nmsg (w4.rd.length + 1) 1 w4 with ⟨r, v⟩
  cases r <;> rfl

theorem loopIndices_succ (a k : Nat) :
    loopIndices a (k + 1) = (a : Int) :: loopIndices (a + 1) k := by
  simp [loopIndices, List.range'_succ]

/-- With more fuel than bytes to come, the loop on the count `nmsg = a + k - 1`
started at `a` runs the turns of the `k` indices from `a` on, in order, until
one ends the run; this unless `i++` wraps around, which takes `a + k = 2 ^ 63`
and no turn ending the run. -/
theorem mainLoop_eq_runTurns (cfg : Config) (nmsg : Int) :
    ∀ (k a fuel : Nat) (w : World), w.rd.length < fuel →
      nmsg + 1 = (a : Int) + (k : Int) → a + k ≤ 2 ^ 63 →
      (a + k < 2 ^ 63 ∨ (runTurns cfg (loopIndices a k) w).1 ≠ none) →
      mainLoop cfg nmsg fuel a w = runTurns cfg (loopIndices a k) w := by
  intro k
  induction k with
  | zero =>
    intro a fuel w hf hn _ _
    cases fuel with
    | zero => omega
    | succ fuel =>
      rw [mainLoop, if_neg (by omega)]
      rfl
  | succ k ih =>
    intro a fuel w hf hn hk hor
    cases fuel with
    | zero => omega
    | succ fuel =>
      rw [mainLoop, if_pos (by omega), loopIndices_succ, runTurns]
      rw [loopIndices_succ, runTurns] at hor
      have hb := loopBody_exit cfg a w
      rcases hlb : loopBody cfg (a : Int) w with ⟨r, w1⟩
      rw [hlb] at hb hor
      simp only at hb hor
      rcases hb with ⟨err, he⟩ | ⟨hnone, hlen⟩
      · subst he; rfl
      · subst hnone
        dsimp only at hor ⊢
        have hwrap : a + 1 < 2 ^ 63 := by
          by_contra hc
          have hk0 : k = 0 := by omega
          subst hk0
          rcases hor with h | h
          · omega
          · exact h rfl
        rw [incr64_natCast a hwrap]
        exact ih (a + 1) fuel w1 (by omega) (by push_cast; omega) (by omega)
          (by rcases hor with h | h
              · exact Or.inl (by omega)
              · exact Or.inr h)

/-- The turns for the `k` indices from `a` on send `RETR a`, `DELE a`,
`RETR (a + 1)`, ... in this order; all of them when no turn ends the run, which
a turn does only with `log.Fatal`. -/
theorem runTurns_sent (cfg : Config) :
    ∀ (k a : Nat) (w : World),
      ∃ ext, (runTurns cfg (loopIndices a k) w).2.trace = w.trace ++ ext ∧
        sentLines ext <+: loopCommandsFrom a k ∧
        ((runTurns cfg (loopIndices a k) w).1 = none → sentLines ext = loopCommandsFrom a k) ∧
        (runTurns cfg (loopIndices a k) w).1 ≠ some .done := by
  intro k
  induction k with
  | zero =>
    intro a w
    exact ⟨[], by simp [loopIndices, runTurns], by simp [sentLines],
      fun _ => rfl, by simp [loopIndices, runTurns]⟩
  | succ k ih =>
    intro a w
    rw [loopIndices_succ, runTurns, loopCommandsFrom_succ]
    obtain ⟨ext1, t1, hnone, hcases⟩ := loopBody_sent cfg a w
    have hb := loopBody_exit cfg a w
    rw [fmtD_natCast] at hnone hcases
    rcases hlb : loopBody cfg (a : Int) w with ⟨r, w1⟩
    rw [hlb] at t1 hnone hb
    simp only at t1 hnone hb
    cases r with
    | some e =>
      refine ⟨ext1, t1, ?_, by simp, ?_⟩
      · rcases hcases with h | h
        · rw [h]; simp
        · rw [h]; simp
      · rcases hb with ⟨err, he⟩ | ⟨h, _⟩
        · rw [he]; simp
        · simp at h
    | none =>
      have hs1 := hnone rfl
      dsimp only
      obtain ⟨ext2, t2, hpre, hdone, hfatal⟩ := ih (a + 1) w1
      refine ⟨ext1 ++ ext2, by rw [t2, t1, List.append_assoc], ?_, ?_, hfatal⟩
      · rw [sentLines_append, hs1]
        exact (List.prefix_append_right_inj _).2 hpre
      · intro h
        rw [sentLines_append, hs1, hdone h]

/-- The end of the session adds `QUIT` to the commands of a loop left normally,
and ends `done` only then. -/
theorem sessionEnd_sent (r : Option Exit × World) (hr : r.1 ≠ some .done) :
    ∃ ext, (sessionEnd r).2.trace = r.2.trace ++ ext ∧
      (r.1 = none → sentLines ext = ["QUIT"]) ∧
      (r.1 ≠ none → ext = [] ∧ (sessionEnd r).1 ≠ .done) := by
  obtain ⟨e, v⟩ := r
  cases e with
  | some e =>
    refine ⟨[], by simp [sessionEnd], by simp, fun _ => ⟨rfl, ?_⟩⟩
    simp only [sessionEnd]
    intro h
    exact hr (by rw [h])
  | none =>
    have ht := Cmd_trace "QUIT" v
    refine ⟨[.send "QUIT" (v.wrErr v.nWr)], ?_, fun _ => rfl, by simp⟩
    simp only [sessionEnd]
    rcases hq : Cmd "QUIT" v with ⟨⟨l, err⟩, v1⟩
    rw [hq] at ht
    simp only at ht
    cases err <;> exact ht

/-- C9, as amended. For `n` and `s` below `2 ^ 63`, when the session has reached
`STAT` and the reply is `+OK n s` in decimal, `main` computes the count `n` and
the size `s`, and then iterates the message indices `1..n`: the session is the
turns of the loop body for the indices 1, 2, ..., `n`, in this order, until one
ends the run, followed, when none does, by `QUIT`. The commands sent after
`STAT` are `RETR 1`, `DELE 1`, ..., `RETR n`, `DELE n`, `QUIT`, in this order,
cut short only by a turn that ends the run, and the run ends normally only when
all of them have been sent. The case left out is `n = 2 ^ 63 - 1` with no turn
ending the run, where `i++` wraps around. -/
theorem stat_count_and_loop (n s : Nat) (hn : n < 2 ^ 63) (hs : s < 2 ^ 63)
    (cfg : Config) (w w1 w2 w3 : World) (buf : List Char) (g l1 l2 : String)
    (hgreet : connRead 255 w = (.ok buf, w1))
    (hg : ParseResponseLine (String.mk buf) = (true, g, none))
    (huser : Cmd ("USER " ++ cfg.Username) w1 = ((l1, none), w2))
    (hpass : Cmd ("PASS " ++ cfg.Password) w2 = ((l2, none), w3))
    (hw : w3.wrErr w3.nWr = none)
    (hline : (ReadLine w3).1 = .ok ("+OK " ++ toString n ++ " " ++ toString s)) :
    (mainStat w3).1 = .ok ((n : Int), (s : Int)) ∧
    ((n + 1 < 2 ^ 63 ∨ (runTurns cfg (loopIndices 1 n) (mainStat w3).2).1 ≠ none) →
      mainSession cfg w = sessionEnd (runTurns cfg (loopIndices 1 n) (mainStat w3).2) ∧
      ∃ ext, (mainSession cfg w).2.trace = (mainStat w3).2.trace ++ ext ∧
        sentLines ext <+: loopCommands n ++ ["QUIT"] ∧
        ((mainSession cfg w).1 = .done → sentLines ext = loopCommands n ++ ["QUIT"])) := by
  have h1 := mainStat_ok n s hn hs w3 hw hline
  refine ⟨h1, ?_⟩
  rcases hst : mainStat w3 with ⟨r, w4⟩
  rw [hst] at h1
  simp only at h1
  subst h1
  intro hor
  simp only at hor ⊢
  have hsess := mainSession_from_stat cfg w w1 w2 w3 w4 buf g l1 l2 n s hgreet hg huser hpass hst
  have hloop := mainLoop_eq_runTurns cfg (n : Int) n 1 (w4.rd.length + 1) w4 (by omega)
    (by push_cast; omega) (by omega)
    (by rcases hor with h | h
        · exact Or.inl (by omega)
        · exact Or.inr h)
  rw [Nat.cast_one] at hloop
  rw [hloop] at hsess
  refine ⟨hsess, ?_⟩
  obtain ⟨ext1, t1, hpre, hall, hnd⟩ := runTurns_sent cfg n 1 w4
  obtain ⟨ext2, t2, hq, hne⟩ := sessionEnd_sent (runTurns cfg (loopIndices 1 n) w4) hnd
  refine ⟨ext1 ++ ext2, by rw [hsess, t2, t1, List.append_assoc], ?_, ?_⟩
  · by_cases hn0 : (runTurns cfg (loopIndices 1 n) w4).1 = none
    · rw [sentLines_append, hall hn0, hq hn0]
      exact List.prefix_refl _
    · rw [(hne hn0).1, List.append_nil]
      exact hpre.trans (List.prefix_append _ _)
  · intro hdone
    by_cases hn0 : (runTurns cfg (loopIndices 1 n) w4).1 = none
    · rw [sentLines_append, hall hn0, hq hn0]
      rfl
    · rw [hsess] at hdone
      exact absurd hdone (hne hn0).2

/-- Witness of C9, as amended: after the reply `+OK 3 1500` the count is 3 and
the size 1500, and the session over a mailbox of three messages sends the six
commands of the loop and `QUIT`, and ends normally. -/
theorem stat_count_and_loop_witness :
    (mainStat threeMessagesAtStat).1 = .ok (3, 1500) ∧
    (mainSession sampleConfig (quietWorld threeMessageSession 11)).1 = .done ∧
    sentLines (mainSession sampleConfig (quietWorld threeMessageSession 11)).2.trace =
      ["USER u", "PASS p", "STAT", "RETR 1", "DELE 1", "RETR 2", "DELE 2",
       "RETR 3", "DELE 3", "QUIT"] := by
  have h := stat_count_and_loop 3 1500 (by decide) (by decide) sampleConfig
    (quietWorld threeMessageSession 11)
    (connRead 255 (quietWorld threeMessageSession 11)).2
    (Cmd "USER u" (connRead 255 (quietWorld threeMessageSession 11)).2).2
    threeMessagesAtStat "+OK ready\r\n".data "ready\r\n" "" ""
    (by rfl) (by decide) (by rfl) (by rfl) (by decide) (by rfl)
  have h2 := (h.2 (Or.inl (by decide))).1
  refine ⟨h.1, ?_, ?_⟩
  · rw [h2]; decide
  · rw [h2]; decide

/-! ## The loop at the largest count -/

theorem connCmd_quiet (cmd : String) (w : World) (h : Quiet w) : Quiet (connCmd cmd w).2 := h

theorem ReadLine_quiet (w : World) (h : Quiet w) : Quiet (ReadLine w).2 := by
  unfold ReadLine
  by_cases h0 : w.rd = []
  · simpa [h0] using h
  · simp only [h0, if_false]
    cases IndexByte w.rd (Char.ofNat 10) <;> exact h

theorem ReadDotBytes_quiet (w : World) (h : Quiet w) : Quiet (ReadDotBytes w).2 := by
  unfold ReadDotBytes
  cases dotLoop w.rdErr (2 * w.rd.length + 2) .beginLine w.rd [] with
  | none => exact h
  | some r => exact h

theorem Cmd_quiet (cmd : String) (w : World) (h : Quiet w) : Quiet (Cmd cmd w).2 := by
  have h1 := connCmd_quiet cmd w h
  unfold Cmd
  rcases hcc : connCmd cmd w with ⟨e, w1⟩
  rw [hcc] at h1
  simp only at h1
  cases e with
  | some err => exact h1
  | none =>
    dsimp only
    have h2 := ReadLine_quiet w1 h1
    rcases hrl : ReadLine w1 with ⟨r, w2⟩
    rw [hrl] at h2
    simp only at h2
    cases r with
    | error e1 => exact h2
    | ok line =>
      dsimp only
      rcases ParseResponseLine line with ⟨ok, rmsg, err⟩
      cases err <;> cases ok <;> exact h2

theorem CmdMulti_quiet (cmd : String) (w : World) (h : Quiet w) : Quiet (CmdMulti cmd w).2 := by
  have h1 := connCmd_quiet cmd w h
  unfold CmdMulti
  rcases hcc : connCmd cmd w with ⟨e, w1⟩
  rw [hcc] at h1
  simp only at h1
  cases e with
  | some err => exact h1
  | none =>
    dsimp only
    have h2 := ReadLine_quiet w1 h1
    rcases hrl : ReadLine w1 with ⟨r, w2⟩
    rw [hrl] at h2
    simp only at h2
    cases r with
    | error e1 => exact h2
    | ok line =>
      dsimp only
      rcases ParseResponseLine line with ⟨ok, rmsg, err⟩
      have h3 := ReadDotBytes_quiet w2 h2
      rcases hrb : ReadDotBytes w2 with ⟨d, w3⟩
      rw [hrb] at h3
      simp only at h3
      cases err <;> cases ok <;> cases d <;> first | exact h2 | exact h3

theorem SaveToMaildir_quiet (mdpath : String) (msg : List Char) (w : World) (h : Quiet w) :
    Quiet (SaveToMaildir mdpath msg w).2 ∧ (SaveToMaildir mdpath msg w).1 = none := by
  obtain ⟨u, hu⟩ := h.2.1 w.nRand
  have hwr := h.2.2 w.nWrite
  unfold SaveToMaildir
  rw [hu]
  cases hre : w.renameErr w.nRename <;> simp [hwr, hre] <;> exact h

/-- A line without `\n` followed by `\r\n` is read as that line. -/
theorem ReadLine_crlf (w : World) (l tail : List Char) (hl : (Char.ofNat 10) ∉ l)
    (hrd : w.rd = l ++ '\r' :: '\n' :: tail) :
    (ReadLine w).1 = .ok (String.mk l) ∧ (ReadLine w).2.rd = tail := by
  have hidx : IndexByte w.rd '\n' = some (l ++ ['\r']).length := by
    rw [hrd]
    have := IndexByte_append_sep (l ++ ['\r']) tail '\n' (by simp [hl])
    simpa using this
  have hne : w.rd ≠ [] := by rw [hrd]; simp
  unfold ReadLine
  rw [if_neg hne, hidx]
  have htake : w.rd.take (l ++ ['\r']).length = l ++ ['\r'] := by
    rw [hrd]
    have : l ++ '\r' :: '\n' :: tail = (l ++ ['\r']) ++ '\n' :: tail := by simp
    rw [this, List.take_left]
  have hdrop : w.rd.drop ((l ++ ['\r']).length + 1) = tail := by
    rw [hrd]
    have : l ++ '\r' :: '\n' :: tail = (l ++ ['\r', '\n']) ++ tail := by simp
    rw [this]
    have hlen : (l ++ ['\r']).length + 1 = (l ++ ['\r', '\n']).length := by simp
    rw [hlen, List.drop_left]
  simp only [htake, hdrop]
  simp

theorem Cmd_rd_eq (cmd : String) (w : World) (hw : w.wrErr w.nWr = none) :
    (Cmd cmd w).2.rd = (ReadLine w).2.rd := by
  have hc := ReadLine_congr w (connCmd cmd w).2 (connCmd_rd cmd w) (connCmd_rdErr cmd w)
  have hfst := connCmd_fst cmd w
  unfold Cmd
  rcases hcc : connCmd cmd w with ⟨e, w1⟩
  rw [hcc] at hc hfst
  simp only at hc hfst
  have he : e = none := by rw [hfst, hw]
  subst he
  dsimp only
  rcases hrl : ReadLine w1 with ⟨r, w2⟩
  rw [hrl] at hc
  simp only at hc
  cases r with
  | error e1 => exact hc.2
  | ok line =>
    dsimp only
    rcases ParseResponseLine line with ⟨ok, rmsg, err⟩
    cases err <;> cases ok <;> exact hc.2

/-- One turn of the loop on the replies `wrapTurn`: the turn goes through and
takes exactly these replies. -/
theorem loopBody_wrapTurn (cfg : Config) (i : Int) (w : World) (rest : List Char)
    (hq : Quiet w) (hrd : w.rd = wrapTurn ++ rest) :
    ∃ v, loopBody cfg i w = (none, v) ∧ Quiet v ∧ v.rd = rest := by
  have hr1 := ReadLine_crlf w "+OK 0".data (".\r\n+OK\r\n".data ++ rest) (by decide)
    (by rw [hrd]; rfl)
  have hm := CmdMulti_body ("RETR " ++ fmtD i) "+OK 0" "0" [] ("+OK\r\n".data ++ rest) w
    (hq.1 _) hr1.1 (by decide) (by rw [hr1.2]; rfl) (by simp)
  have hm1 : (CmdMulti ("RETR " ++ fmtD i) w).1 = ("0", some [], none) := hm.1
  have hmrd := hm.2
  have hq1 := CmdMulti_quiet ("RETR " ++ fmtD i) w hq
  unfold loopBody
  rcases hcm : CmdMulti ("RETR " ++ fmtD i) w with ⟨⟨line, data, err⟩, w1⟩
  rw [hcm] at hm1 hmrd hq1
  simp only [Prod.mk.injEq] at hm1 hmrd
  obtain ⟨rfl, rfl, rfl⟩ := hm1
  dsimp only
  have hat : Atoi ((SplitN "0" ' ' 2).headD "") = (0, none) := by decide
  rw [hat]
  simp only [Option.getD]
  have hs := SaveToMaildir_quiet cfg.MaildirPath [] w1 hq1
  have hsrd := SaveToMaildir_rd cfg.MaildirPath [] w1
  rcases hsv : SaveToMaildir cfg.MaildirPath [] w1 with ⟨e3, w2⟩
  rw [hsv] at hs hsrd
  simp only at hs hsrd
  obtain ⟨hq2, rfl⟩ := hs
  dsimp only
  have hr2 := ReadLine_crlf w2 "+OK".data rest (by decide) (by rw [hsrd, hmrd]; rfl)
  have hc := Cmd_ok ("DELE " ++ fmtD i) "+OK" "" w2 (hq2.1 _) hr2.1 (by decide)
  have hcrd := Cmd_rd_eq ("DELE " ++ fmtD i) w2 (hq2.1 _)
  have hq3 := Cmd_quiet ("DELE " ++ fmtD i) w2 hq2
  rcases hcd : Cmd ("DELE " ++ fmtD i) w2 with ⟨⟨l4, e4⟩, w3⟩
  rw [hcd] at hc hcrd hq3
  simp only [Prod.mk.injEq] at hc
  obtain ⟨rfl, rfl⟩ := hc
  exact ⟨w3, rfl, hq3, by rw [hcrd, hr2.2]⟩

theorem wrapTurns_length (k : Nat) (rest : List Char) :
    (wrapTurns k rest).length = 15 * k + rest.length := by
  induction k with
  | zero => simp [wrapTurns]
  | succ k ih =>
    have h15 : wrapTurn.length = 15 := by decide
    rw [wrapTurns, List.length_append, ih, h15]
    omega

/-- The loop at the largest count, on the replies of `k` turns: the turns go
through one after the other. -/
theorem mainLoop_wrapTurns (cfg : Config) :
    ∀ (k a fuel : Nat) (w : World) (rest : List Char),
      Quiet w → w.rd = wrapTurns k rest → a + k < 2 ^ 63 → k ≤ fuel →
      ∃ v, Quiet v ∧ v.rd = rest ∧
        mainLoop cfg (2 ^ 63 - 1) fuel a w =
          mainLoop cfg (2 ^ 63 - 1) (fuel - k) ((a + k : Nat) : Int) v := by
  intro k
  induction k with
  | zero =>
    intro a fuel w rest hq hrd _ _
    exact ⟨w, hq, hrd, rfl⟩
  | succ k ih =>
    intro a fuel w rest hq hrd ha hf
    cases fuel with
    | zero => omega
    | succ f =>
      obtain ⟨v1, hb, hq1, hrd1⟩ := loopBody_wrapTurn cfg (a : Int) w (wrapTurns k rest) hq hrd
      obtain ⟨v, hqv, hrdv, heq⟩ := ih (a + 1) f v1 rest hq1 hrd1 (by omega) (by omega)
      refine ⟨v, hqv, hrdv, ?_⟩
      rw [mainLoop, if_pos (by omega), hb]
      dsimp only
      rw [incr64_natCast a (by omega), heq]
      have h1 : f + 1 - (k + 1) = f - k := by omega
      have h2 : a + 1 + k = a + (k + 1) := by omega
      rw [h1, h2]

theorem mem_sentLines_append_left (x : String) (a b : List Event) (h : x ∈ sentLines a) :
    x ∈ sentLines (a ++ b) := by
  rw [sentLines_append]
  exact List.mem_append_left _ h

/-- After the turn of the index `2 ^ 63 - 1` the loop goes on with the index
`-2 ^ 63`. -/
theorem mainLoop_wraps (cfg : Config) (k fuel : Nat) (w : World)
    (hk : k + 2 = 2 ^ 63) (hf : k + 2 ≤ fuel) (hq : Quiet w)
    (hrd : w.rd = wrapTurns k (wrapTurn ++ wrapTurn)) :
    "RETR -9223372036854775808" ∈ sentLines (mainLoop cfg (2 ^ 63 - 1) fuel 1 w).2.trace := by
  obtain ⟨v, hqv, hrdv, heq⟩ :=
    mainLoop_wrapTurns cfg k 1 fuel w (wrapTurn ++ wrapTurn) hq hrd (by omega) (by omega)
  rw [Nat.cast_one] at heq
  rw [heq]
  obtain ⟨f, hfe⟩ : ∃ f, fuel - k = f + 2 := ⟨fuel - k - 2, by omega⟩
  obtain ⟨v1, hb, hq1, hrd1⟩ := loopBody_wrapTurn cfg ((1 + k : Nat) : Int) v wrapTurn hqv hrdv
  have hinc : incr64 ((1 + k : Nat) : Int) = -2 ^ 63 := by
    unfold incr64
    push_cast
    omega
  rw [hfe, mainLoop, if_pos (by push_cast; omega), hb]
  dsimp only
  rw [hinc, mainLoop, if_pos (by norm_num)]
  obtain ⟨ext, t, -, hc⟩ := loopBody_sent cfg (-2 ^ 63) v1
  have hfmt : "RETR " ++ fmtD (-2 ^ 63) = "RETR -9223372036854775808" := by decide
  rw [hfmt] at hc
  have hmem : "RETR -9223372036854775808" ∈ sentLines (loopBody cfg (-2 ^ 63) v1).2.trace := by
    rw [t, sentLines_append]
    apply List.mem_append_right
    rcases hc with h | h <;> rw [h] <;> simp
  rcases hlb : loopBody cfg (-2 ^ 63) v1 with ⟨r, v2⟩
  rw [hlb] at hmem
  cases r with
  | some e => exact hmem
  | none =>
    dsimp only
    obtain ⟨ext2, t2⟩ := mainLoop_trace cfg (2 ^ 63 - 1) (f) (incr64 (-2 ^ 63)) v2
    rw [t2]
    exact mem_sentLines_append_left _ _ _ hmem

theorem sessionEnd_trace (r : Option Exit × World) :
    ∃ ext, (sessionEnd r).2.trace = r.2.trace ++ ext := by
  obtain ⟨e, v⟩ := r
  cases e with
  | some e => exact ⟨[], by simp [sessionEnd]⟩
  | none =>
    have ht := Cmd_trace "QUIT" v
    refine ⟨[.send "QUIT" (v.wrErr v.nWr)], ?_⟩
    simp only [sessionEnd]
    rcases hq : Cmd "QUIT" v with ⟨⟨l, err⟩, v1⟩
    rw [hq] at ht
    simp only at ht
    cases err <;> exact ht

theorem connRead_greeting (w : World) (g rest : List Char) (hg : g ≠ [])
    (hrd : w.rd = g ++ rest) (hav : w.avail = g.length) (hlen : g.length ≤ 255) :
    connRead 255 w = (.ok g, { w with rd := rest }) := by
  have hne : w.rd ≠ [] := by rw [hrd]; simp [hg]
  have hpos : 0 < g.length := List.length_pos.mpr hg
  have hn : min 255 (max 1 w.avail) = g.length := by rw [hav]; omega
  unfold connRead
  rw [if_neg hne]
  simp only [hn, hrd, List.take_left, List.drop_left]

theorem mainStat_world (w : World) : (mainStat w).2 = (Cmd "STAT" w).2 := by
  unfold mainStat
  rcases Cmd "STAT" w with ⟨⟨line, err⟩, w1⟩
  cases err with
  | some e => rfl
  | none =>
    dsimp only
    split_ifs
    · rfl
    · rcases Atoi ((Split line ' ').getD 0 "") with ⟨v1, e1⟩
      cases e1 with
      | some e => rfl
      | none =>
        dsimp only
        rcases Atoi ((Split line ' ').getD 1 "") with ⟨v2, e2⟩
        cases e2 <;> rfl

/-- A command answered by `+OK` in a quiet environment. -/
theorem Cmd_plain_ok (cmd : String) (w : World) (rest : List Char) (hq : Quiet w)
    (hrd : w.rd = "+OK\r\n".data ++ rest) :
    ∃ v, Cmd cmd w = (("", none), v) ∧ Quiet v ∧ v.rd = rest := by
  have hr := ReadLine_crlf w "+OK".data rest (by decide) (by rw [hrd]; rfl)
  have hc := Cmd_ok cmd "+OK" "" w (hq.1 _) hr.1 (by decide)
  have hcrd := Cmd_rd_eq cmd w (hq.1 _)
  have hqv := Cmd_quiet cmd w hq
  rcases hcd : Cmd cmd w with ⟨⟨l, e⟩, v⟩
  rw [hcd] at hc hcrd hqv
  simp only [Prod.mk.injEq] at hc
  obtain ⟨rfl, rfl⟩ := hc
  exact ⟨v, rfl, hqv, by rw [hcrd, hr.2]⟩

/-- The session of `wrapWorldOf tail` reaches the loop with the count
`2 ^ 63 - 1`, the input `tail` and no failure to come. -/
theorem wrapWorldOf_session (tail : List Char) :
    ∃ v, Quiet v ∧ v.rd = tail ∧
      mainSession sampleConfig (wrapWorldOf tail) =
        sessionEnd (mainLoop sampleConfig (2 ^ 63 - 1) (tail.length + 1) 1 v) := by
  have hq0 : Quiet (wrapWorldOf tail) := ⟨fun _ => rfl, fun _ => ⟨_, rfl⟩, fun _ => rfl⟩
  have hg := connRead_greeting (wrapWorldOf tail) "+OK ready\r\n".data
    ("+OK\r\n".data ++ ("+OK\r\n".data ++ ("+OK 9223372036854775807 0\r\n".data ++ tail)))
    (by decide) rfl rfl (by decide)
  obtain ⟨w2, hu, hq2, hrd2⟩ := Cmd_plain_ok ("USER " ++ sampleConfig.Username)
    { wrapWorldOf tail with
      rd := "+OK\r\n".data ++
        ("+OK\r\n".data ++ ("+OK 9223372036854775807 0\r\n".data ++ tail)) }
    ("+OK\r\n".data ++ ("+OK 9223372036854775807 0\r\n".data ++ tail)) hq0 rfl
  obtain ⟨w3, hp, hq3, hrd3⟩ := Cmd_plain_ok ("PASS " ++ sampleConfig.Password) w2
    ("+OK 9223372036854775807 0\r\n".data ++ tail) hq2 hrd2
  have hr3 := ReadLine_crlf w3 "+OK 9223372036854775807 0".data tail (by decide)
    (by rw [hrd3]; rfl)
  have hline : (ReadLine w3).1 =
      .ok ("+OK " ++ toString (2 ^ 63 - 1 : Nat) ++ " " ++ toString (0 : Nat)) := by
    rw [hr3.1]
    have : (String.mk "+OK 9223372036854775807 0".data) =
        "+OK " ++ toString (2 ^ 63 - 1 : Nat) ++ " " ++ toString (0 : Nat) := by decide
    rw [this]
  have hms := mainStat_ok (2 ^ 63 - 1) 0 (by norm_num) (by norm_num) w3 (hq3.1 _) hline
  have hmw := mainStat_world w3
  have hq4 := Cmd_quiet "STAT" w3 hq3
  have hrd4 := Cmd_rd_eq "STAT" w3 (hq3.1 _)
  rw [← hmw] at hq4 hrd4
  rw [hr3.2] at hrd4
  rcases hst : mainStat w3 with ⟨r, w4⟩
  rw [hst] at hms hq4 hrd4
  simp only at hms hq4 hrd4
  subst hms
  have h := mainSession_from_stat sampleConfig (wrapWorldOf tail) _ w2 w3 w4
    "+OK ready\r\n".data "ready\r\n" "" "" _ _ hg (by decide) hu hp hst
  rw [hrd4] at h
  have hcast : (((2 ^ 63 - 1 : Nat)) : Int) = 2 ^ 63 - 1 := by norm_num
  rw [hcast] at h
  exact ⟨w4, hq4, hrd4, h⟩

/-- C9, as stated, fails on three counts. The count `2 ^ 63` does not fit `int`:
`Atoi` reports a range error and the run ends there. A turn that ends the run
stops the iteration: with two messages announced and `RETR 1` rejected, `RETR 2`
is never sent. And with the count `2 ^ 63 - 1` the loop does not stop at the
index `n`: `i++` wraps around and `RETR -9223372036854775808` is sent. -/
theorem count_and_iteration_fail :
    (toString (2 ^ 63 : Nat) = "9223372036854775808" ∧
      (mainStat (quietWorld "+OK 9223372036854775808 1500\r\n" 0)).1 =
        .error (.fatal (.num "9223372036854775808" true))) ∧
    ((mainSession sampleConfig (quietWorld rejectedSession 11)).1 =
        .fatal (.errorf "no such message") ∧
      sentLines (mainSession sampleConfig (quietWorld rejectedSession 11)).2.trace =
        ["USER u", "PASS p", "STAT", "RETR 1"]) ∧
    "RETR -9223372036854775808" ∈ sentLines (mainSession sampleConfig wrapWorld).2.trace := by
  refine ⟨⟨by decide, by rfl⟩, ⟨by decide, by decide⟩, ?_⟩
  obtain ⟨v, hq, hrd, heq⟩ := wrapWorldOf_session (wrapTurns (2 ^ 63 - 2) (wrapTurn ++ wrapTurn))
  have hmem := mainLoop_wraps sampleConfig (2 ^ 63 - 2)
    ((wrapTurns (2 ^ 63 - 2) (wrapTurn ++ wrapTurn)).length + 1) v (by norm_num)
    (by rw [wrapTurns_length]; omega) hq hrd
  obtain ⟨ext, t⟩ := sessionEnd_trace
    (mainLoop sampleConfig (2 ^ 63 - 1)
      ((wrapTurns (2 ^ 63 - 2) (wrapTurn ++ wrapTurn)).length + 1) 1 v)
  have hs : mainSession sampleConfig wrapWorld =
      sessionEnd (mainLoop sampleConfig (2 ^ 63 - 1)
        ((wrapTurns (2 ^ 63 - 2) (wrapTurn ++ wrapTurn)).length + 1) 1 v) := heq
  rw [hs, t]
  exact mem_sentLines_append_left _ _ _ hmem

end MM
